import Mathlib

/-!
Verification of the memory retrieval and adaptive-weighting engine of the
NOYCE repository (`YutongCode/new_adaptive_agent.py`, with the near-duplicate
`YutongCode/AdaptiveDialogueAgent.py`).

The Python data model and operations are shallowly embedded: JSON-like record
values become the inductive `Val`, Python dicts become association lists
(`Bag`), `networkx.MultiDiGraph` becomes the `Graph` structure (node list with
update-on-re-add semantics, edge list with multiplicity), floating-point
weights become exact rationals (`ℚ`), and the external LLM collaborators
become an explicit oracle of per-call results.  Fallible Python code paths
(uncaught exceptions) are embedded with `Except PyFailure`.
-/

namespace Noyce

/-- Embeds the parsed JSON object returned by the evaluator collaborator
(the fields read by the agent: `score`, `sufficient`, `focus_recommendation`). -/
structure Effectiveness where
  score : ℚ
  sufficient : Bool
  focus_recommendation : String
deriving Repr, DecidableEq

/-- Embeds the `SearchWeights` dataclass of `new_adaptive_agent.py` (defaults
`routine_weight = story_weight = 0.5`, `min_weight = 0.2`, `max_weight = 0.8`),
with Python floats modelled as exact rationals. -/
structure SearchWeights where
  routine_weight : ℚ := 1/2
  story_weight : ℚ := 1/2
  min_weight : ℚ := 1/5
  max_weight : ℚ := 4/5
deriving Repr, DecidableEq

/-- A fresh `SearchWeights()` value (all dataclass defaults). -/
def SearchWeights.init : SearchWeights := {}

/-- First half of `SearchWeights.adjust`: the `if`/`elif` step that bumps the
recommended side by `0.1` capped at `max_weight` (no branch for any other
recommendation). -/
def SearchWeights.bump (w : SearchWeights) (effectiveness : Effectiveness) : SearchWeights :=
  if effectiveness.focus_recommendation = "routine" then
    { w with routine_weight := min w.max_weight (w.routine_weight + 1/10) }
  else if effectiveness.focus_recommendation = "memory" then
    { w with story_weight := min w.max_weight (w.story_weight + 1/10) }
  else
    w

/-- Second half of `SearchWeights.adjust`: `total = routine + story` and the
division of both weights by `total`. -/
def SearchWeights.renorm (w : SearchWeights) : SearchWeights :=
  { w with routine_weight := w.routine_weight / (w.routine_weight + w.story_weight),
           story_weight := w.story_weight / (w.routine_weight + w.story_weight) }

/-- Embeds `SearchWeights.adjust` of `new_adaptive_agent.py`: the capped bump
followed by renormalization by the current sum. -/
def SearchWeights.adjust (w : SearchWeights) (effectiveness : Effectiveness) : SearchWeights :=
  (w.bump effectiveness).renorm

theorem bump_routine {e : Effectiveness} (w : SearchWeights)
    (h : e.focus_recommendation = "routine") :
    w.bump e = { w with routine_weight := min w.max_weight (w.routine_weight + 1/10) } := by
  unfold SearchWeights.bump
  rw [if_pos h]

theorem bump_memory {e : Effectiveness} (w : SearchWeights)
    (h1 : e.focus_recommendation ≠ "routine") (h2 : e.focus_recommendation = "memory") :
    w.bump e = { w with story_weight := min w.max_weight (w.story_weight + 1/10) } := by
  unfold SearchWeights.bump
  rw [if_neg h1, if_pos h2]

theorem bump_other {e : Effectiveness} (w : SearchWeights)
    (h1 : e.focus_recommendation ≠ "routine") (h2 : e.focus_recommendation ≠ "memory") :
    w.bump e = w := by
  unfold SearchWeights.bump
  rw [if_neg h1, if_neg h2]

/-- The weight state reached from the dataclass defaults by a sequence of
`adjust` calls, one per recorded effectiveness judgment. -/
def adjustSeq (recs : List Effectiveness) : SearchWeights :=
  recs.foldl SearchWeights.adjust SearchWeights.init

/-- Invariant maintained by `adjust` from the default state: the two weights
sum to one, the routine weight stays inside the default `[0.2, 0.8]` band, and
the band configuration itself is the default one. -/
def SWinv (w : SearchWeights) : Prop :=
  w.routine_weight + w.story_weight = 1 ∧
  1/5 ≤ w.routine_weight ∧ w.routine_weight ≤ 4/5 ∧
  w.min_weight = 1/5 ∧ w.max_weight = 4/5

theorem normBounds {x y : ℚ} (hx1 : 1/5 ≤ x) (hx2 : x ≤ 4/5)
    (hy1 : 1/5 ≤ y) (hy2 : y ≤ 4/5) :
    x / (x + y) + y / (x + y) = 1 ∧
    1/5 ≤ x / (x + y) ∧ x / (x + y) ≤ 4/5 ∧
    1/5 ≤ y / (x + y) ∧ y / (x + y) ≤ 4/5 := by
  have ht0 : (0 : ℚ) < x + y := by linarith
  refine ⟨?_, ?_, ?_, ?_, ?_⟩
  · rw [div_add_div_same, div_self (ne_of_gt ht0)]
  · rw [le_div_iff₀ ht0]; nlinarith
  · rw [div_le_iff₀ ht0]; nlinarith
  · rw [le_div_iff₀ ht0]; nlinarith
  · rw [div_le_iff₀ ht0]; nlinarith

theorem SWinv_adjust {w : SearchWeights} (h : SWinv w) (e : Effectiveness) :
    SWinv (w.adjust e) := by
  obtain ⟨hsum, hlo, hhi, hmin, hmax⟩ := h
  have hslo : 1/5 ≤ w.story_weight := by linarith
  have hshi : w.story_weight ≤ 4/5 := by linarith
  unfold SearchWeights.adjust
  by_cases h1 : e.focus_recommendation = "routine"
  · rw [bump_routine w h1, hmax]
    have hx1 : 1/5 ≤ min (4/5 : ℚ) (w.routine_weight + 1/10) :=
      le_min (by norm_num) (by linarith)
    have hx2 : min (4/5 : ℚ) (w.routine_weight + 1/10) ≤ 4/5 := min_le_left _ _
    obtain ⟨p1, p2, p3, p4, p5⟩ := normBounds hx1 hx2 hslo hshi
    exact ⟨p1, p2, p3, hmin, rfl⟩
  · by_cases h2 : e.focus_recommendation = "memory"
    · rw [bump_memory w h1 h2, hmax]
      have hy1 : 1/5 ≤ min (4/5 : ℚ) (w.story_weight + 1/10) :=
        le_min (by norm_num) (by linarith)
      have hy2 : min (4/5 : ℚ) (w.story_weight + 1/10) ≤ 4/5 := min_le_left _ _
      obtain ⟨p1, p2, p3, p4, p5⟩ := normBounds hlo hhi hy1 hy2
      exact ⟨p1, p2, p3, hmin, rfl⟩
    · rw [bump_other w h1 h2]
      refine ⟨?_, ?_, ?_, hmin, hmax⟩
      · show w.routine_weight / (w.routine_weight + w.story_weight) +
            w.story_weight / (w.routine_weight + w.story_weight) = 1
        rw [hsum, div_one, div_one, hsum]
      · show 1/5 ≤ w.routine_weight / (w.routine_weight + w.story_weight)
        rw [hsum, div_one]; exact hlo
      · show w.routine_weight / (w.routine_weight + w.story_weight) ≤ 4/5
        rw [hsum, div_one]; exact hhi

theorem SWinv_init : SWinv SearchWeights.init := by
  refine ⟨by norm_num [SearchWeights.init], by norm_num [SearchWeights.init],
    by norm_num [SearchWeights.init], rfl, rfl⟩

theorem SWinv_foldl (l : List Effectiveness) :
    ∀ w : SearchWeights, SWinv w → SWinv (l.foldl SearchWeights.adjust w) := by
  induction l with
  | nil => intro w h; simpa using h
  | cons e rest ih =>
    intro w h
    simpa using ih (w.adjust e) (SWinv_adjust h e)

theorem SWinv_adjustSeq (recs : List Effectiveness) : SWinv (adjustSeq recs) :=
  SWinv_foldl recs SearchWeights.init SWinv_init

/-- C2: for every sequence of `adjust` calls on a `SearchWeights` value
starting from its defaults, after any `adjust` call both `routine_weight` and
`story_weight` lie within the `[min_weight, max_weight]` band. -/
theorem C2_weights_within_band (recs : List Effectiveness) (e : Effectiveness) :
    ((adjustSeq recs).adjust e).min_weight ≤ ((adjustSeq recs).adjust e).routine_weight ∧
    ((adjustSeq recs).adjust e).routine_weight ≤ ((adjustSeq recs).adjust e).max_weight ∧
    ((adjustSeq recs).adjust e).min_weight ≤ ((adjustSeq recs).adjust e).story_weight ∧
    ((adjustSeq recs).adjust e).story_weight ≤ ((adjustSeq recs).adjust e).max_weight := by
  obtain ⟨hsum, hlo, hhi, hmin, hmax⟩ := SWinv_adjust (SWinv_adjustSeq recs) e
  refine ⟨by rw [hmin]; exact hlo, by rw [hmax]; exact hhi,
    by rw [hmin]; linarith, by rw [hmax]; linarith⟩

/-- C4: for every sequence of `adjust` calls on a `SearchWeights` value
starting from its defaults, after every `adjust` call
`routine_weight + story_weight` equals `1` exactly (in the exact rational
model of the floating-point weights). -/
theorem C4_weights_sum_to_one (recs : List Effectiveness) (e : Effectiveness) :
    ((adjustSeq recs).adjust e).routine_weight + ((adjustSeq recs).adjust e).story_weight = 1 :=
  (SWinv_adjust (SWinv_adjustSeq recs) e).1

/-- C9: calling `adjust` with a focus recommendation other than `"routine"`
and `"memory"` (e.g. `"balanced"`) leaves both weights numerically unchanged,
for every state reachable from the defaults by prior `adjust` calls. -/
theorem C9_balanced_noop (recs : List Effectiveness) (e : Effectiveness)
    (h1 : e.focus_recommendation ≠ "routine") (h2 : e.focus_recommendation ≠ "memory") :
    ((adjustSeq recs).adjust e).routine_weight = (adjustSeq recs).routine_weight ∧
    ((adjustSeq recs).adjust e).story_weight = (adjustSeq recs).story_weight := by
  obtain ⟨hsum, hlo, hhi, hmin, hmax⟩ := SWinv_adjustSeq recs
  unfold SearchWeights.adjust
  rw [bump_other _ h1 h2]
  constructor
  · show (adjustSeq recs).routine_weight /
        ((adjustSeq recs).routine_weight + (adjustSeq recs).story_weight) = _
    rw [hsum, div_one]
  · show (adjustSeq recs).story_weight /
        ((adjustSeq recs).routine_weight + (adjustSeq recs).story_weight) = _
    rw [hsum, div_one]

/-- Witness for C9 at a concrete reachable state and a concrete `"balanced"`
recommendation. -/
theorem C9_balanced_noop_witness :
    ((adjustSeq [⟨1/2, true, "routine"⟩]).adjust ⟨1/2, true, "balanced"⟩).routine_weight =
      (adjustSeq [⟨1/2, true, "routine"⟩]).routine_weight ∧
    ((adjustSeq [⟨1/2, true, "routine"⟩]).adjust ⟨1/2, true, "balanced"⟩).story_weight =
      (adjustSeq [⟨1/2, true, "routine"⟩]).story_weight :=
  C9_balanced_noop [⟨1/2, true, "routine"⟩] ⟨1/2, true, "balanced"⟩
    (by decide) (by decide)

/-- JSON-like record values: the shapes taken by the per-patient records
(strings, integers, arrays, objects) that the agent loads and splices into
graph-node attribute bags. -/
inductive Val where
  | str (s : String)
  | num (n : Int)
  | list (l : List Val)
  | dict (d : List (String × Val))

/-- A Python dict as an insertion-ordered association list. -/
abbrev Bag := List (String × Val)

/-- Python `bag[key]` / `bag.get(key)`: the binding of the first matching key. -/
def lookupBag (b : Bag) (k : String) : Option Val :=
  match b with
  | [] => none
  | kv :: rest => if kv.1 = k then some kv.2 else lookupBag rest k

/-- A string-valued field of a well-formed record
(models Python `record[key]` where the data model makes the value a string). -/
def strField (b : Bag) (k : String) : String :=
  match lookupBag b k with
  | some (Val.str s) => s
  | _ => ""

/-- Python string `<=` on the underlying character lists
(code-point lexicographic comparison). -/
def charListLe : List Char → List Char → Bool
  | [], _ => true
  | _ :: _, [] => false
  | a :: as, b :: bs =>
    if a.val < b.val then true
    else if b.val < a.val then false
    else charListLe as bs

/-- Python `s <= t` on strings, as used on the zero-padded `HH:MM` strings. -/
def pyStrLe (s t : String) : Bool := charListLe s.data t.data

/-- The interval test of the activity-locator loop:
`activity['time_start'] <= time_str <= activity['time_end']`
(inclusive at both endpoints). -/
def containsTime (activity : Bag) (time_str : String) : Bool :=
  pyStrLe (strField activity "time_start") time_str &&
  pyStrLe time_str (strField activity "time_end")

/-- Embeds `MemoryGraphManager.get_activity_at_time` of `new_adaptive_agent.py`
(and the identical `get_current_activity` of `AdaptiveDialogueAgent.py`): scan
the routine's activities in record order and return the first whose interval
contains the formatted `HH:MM` timestamp; `none` when no interval matches. -/
def get_activity_at_time (activities : List Bag) (time_str : String) : Option Bag :=
  match activities with
  | [] => none
  | activity :: rest =>
    if containsTime activity time_str then some activity
    else get_activity_at_time rest time_str

theorem get_activity_cons (x : Bag) (rest : List Bag) (t : String) :
    get_activity_at_time (x :: rest) t =
      if containsTime x t then some x else get_activity_at_time rest t := rfl

theorem get_activity_first_match (activities : List Bag) (t : String) :
    (get_activity_at_time activities t = none ↔
      ∀ a ∈ activities, containsTime a t = false) ∧
    (∀ a, get_activity_at_time activities t = some a →
      containsTime a t = true ∧
      ∃ pre post, activities = pre ++ a :: post ∧ ∀ b ∈ pre, containsTime b t = false) := by
  induction activities with
  | nil =>
    refine ⟨⟨fun _ a ha => absurd ha (List.not_mem_nil a), fun _ => rfl⟩, ?_⟩
    intro a ha
    exact absurd ha (by simp [get_activity_at_time])
  | cons x rest ih =>
    by_cases hx : containsTime x t = true
    · refine ⟨⟨?_, ?_⟩, ?_⟩
      · intro h
        rw [get_activity_cons, if_pos hx] at h
        exact absurd h (by simp)
      · intro h
        exact absurd (h x (by simp)) (by simp [hx])
      · intro a ha
        rw [get_activity_cons, if_pos hx] at ha
        obtain rfl : x = a := by simpa using ha
        exact ⟨hx, [], rest, rfl, by simp⟩
    · have hx' : containsTime x t = false := by simpa using hx
      refine ⟨⟨?_, ?_⟩, ?_⟩
      · intro h a ha
        rw [get_activity_cons, if_neg hx] at h
        rcases List.mem_cons.mp ha with rfl | hmem
        · exact hx'
        · exact ih.1.mp h a hmem
      · intro h
        rw [get_activity_cons, if_neg hx]
        exact ih.1.mpr fun a ha => h a (List.mem_cons_of_mem _ ha)
      · intro a ha
        rw [get_activity_cons, if_neg hx] at ha
        obtain ⟨hc, pre, post, heq, hpre⟩ := ih.2 a ha
        refine ⟨hc, x :: pre, post, by rw [heq]; rfl, ?_⟩
        intro b hb
        rcases List.mem_cons.mp hb with rfl | hmem
        · exact hx'
        · exact hpre b hmem

/-- The single-activity routine entry of the spec's example:
Breakfast from 06:00 to 07:00. -/
def breakfastActivity : Bag :=
  [("time_start", Val.str "06:00"), ("time_end", Val.str "07:00"),
   ("activity", Val.str "Breakfast")]

/-- C5: the Activity Locator returns the first activity in record order whose
`[time_start, time_end]` interval contains the timestamp's `HH:MM` string
under inclusive bounds at both endpoints, and `none` when no interval contains
it; in particular, for the single activity 06:00-07:00, queries at 06:00,
06:30 and 07:00 all return it and a query at 07:30 returns none. -/
theorem C5_activity_locator :
    (∀ activities t,
      (get_activity_at_time activities t = none ↔
        ∀ a ∈ activities, containsTime a t = false) ∧
      (∀ a, get_activity_at_time activities t = some a →
        containsTime a t = true ∧
        ∃ pre post, activities = pre ++ a :: post ∧
          ∀ b ∈ pre, containsTime b t = false)) ∧
    get_activity_at_time [breakfastActivity] "06:00" = some breakfastActivity ∧
    get_activity_at_time [breakfastActivity] "06:30" = some breakfastActivity ∧
    get_activity_at_time [breakfastActivity] "07:00" = some breakfastActivity ∧
    get_activity_at_time [breakfastActivity] "07:30" = none := by
  refine ⟨get_activity_first_match, ?_, ?_, ?_, ?_⟩ <;> rfl

/-- Witness for C5: the first-match characterization applied to the concrete
breakfast routine at 06:30. -/
theorem C5_activity_locator_witness :
    containsTime breakfastActivity "06:30" = true ∧
    ∃ pre post, [breakfastActivity] = pre ++ breakfastActivity :: post ∧
      ∀ b ∈ pre, containsTime b "06:30" = false :=
  (C5_activity_locator.1 [breakfastActivity] "06:30").2 breakfastActivity rfl

mutual

/-- `json.dumps` of a record value (default separators): serializes a node's
content for substring matching, and renders the memory-id fallback. -/
def jsonDump : Val → String
  | Val.str s => "\"" ++ s ++ "\""
  | Val.num n => toString n
  | Val.list l => "[" ++ jsonDumpList l ++ "]"
  | Val.dict d => "\x7b" ++ jsonDumpBag d ++ "\x7d"

/-- Comma-separated serialization of an array's elements. -/
def jsonDumpList : List Val → String
  | [] => ""
  | [v] => jsonDump v
  | v :: rest => jsonDump v ++ ", " ++ jsonDumpList rest

/-- Comma-separated serialization of an object's key/value pairs. -/
def jsonDumpBag : List (String × Val) → String
  | [] => ""
  | [kv] => "\"" ++ kv.1 ++ "\": " ++ jsonDump kv.2
  | kv :: rest => "\"" ++ kv.1 ++ "\": " ++ jsonDump kv.2 ++ ", " ++ jsonDumpBag rest

end

/-- A `networkx.MultiDiGraph`: nodes as an insertion-ordered list of
(identifier, attribute bag) pairs, edges as a list with multiplicity of
(source, destination, edge-type) triples. -/
structure Graph where
  nodes : List (String × Bag)
  edges : List (String × String × String)

/-- The empty graph `nx.MultiDiGraph()`. -/
def Graph.empty : Graph := ⟨[], []⟩

/-- Python `node_id in G`. -/
def hasNode (G : Graph) (node_id : String) : Bool :=
  G.nodes.any fun nb => nb.1 == node_id

/-- Python `dict.update` as networkx applies it to attribute bags: keys
already present keep their position and take the new value; keys only in the
new bag are appended in their order. -/
def bagUpdate (old new : Bag) : Bag :=
  (old.map fun kv =>
    match lookupBag new kv.1 with
    | some v => (kv.1, v)
    | none => kv) ++
  new.filter fun kv => (lookupBag old kv.1).isNone

/-- `G.add_node(node_id, **attrs)`: when the node exists its attribute bag is
updated in place, otherwise a fresh node is appended (networkx semantics). -/
def addNode (G : Graph) (node_id : String) (attrs : Bag) : Graph :=
  if hasNode G node_id then
    { G with nodes := G.nodes.map fun nb =>
        if nb.1 = node_id then (nb.1, bagUpdate nb.2 attrs) else nb }
  else
    { G with nodes := G.nodes ++ [(node_id, attrs)] }

/-- networkx's auto-add of an edge endpoint: append the node with an empty
attribute bag when it is absent. -/
def ensureNode (G : Graph) (node_id : String) : Graph :=
  if hasNode G node_id then G else { G with nodes := G.nodes ++ [(node_id, [])] }

/-- `G.add_edge(u, v, type=ty)`: append one (multi-)edge; endpoints absent
from the graph are auto-added with empty attribute bags (networkx
semantics). -/
def addEdge (G : Graph) (u v ty : String) : Graph :=
  { ensureNode (ensureNode G u) v with
    edges := (ensureNode (ensureNode G u) v).edges ++ [(u, v, ty)] }

/-- `activity['activity']`: the activity label (a string in the data model). -/
def actLabel (activity : Bag) : String := strField activity "activity"

/-- `activity.get('participants', [])`. -/
def actParticipants (activity : Bag) : List Val :=
  match lookupBag activity "participants" with
  | some (Val.list l) => l
  | _ => []

/-- `person['name']` of a participant record (a string in the data model). -/
def pname (person : Val) : String :=
  match person with
  | Val.dict d => strField d "name"
  | _ => ""

/-- The participant dict itself, as splatted into the person node's bag. -/
def pbag (person : Val) : Bag :=
  match person with
  | Val.dict d => d
  | _ => []

/-- One iteration of the participants loop of `construct_memory_network`:
add (or update) the person node, then one `involves` edge from the activity. -/
def addParticipant (activity_id : String) (G : Graph) (person : Val) : Graph :=
  addEdge (addNode G ("person_" ++ pname person)
      (("type", Val.str "person") :: pbag person))
    activity_id ("person_" ++ pname person) "involves"

/-- One iteration of the activities loop of `construct_memory_network`:
add (or update) the activity node, then process its participants. -/
def addActivity (G : Graph) (activity : Bag) : Graph :=
  (actParticipants activity).foldl (addParticipant ("activity_" ++ actLabel activity))
    (addNode G ("activity_" ++ actLabel activity) (("type", Val.str "activity") :: activity))

/-- `memory.get('id', hash(str(memory)))` rendered into the node identifier:
an explicit `id` is rendered with `str`; the hash fallback is modelled as the
deterministic rendering of the whole record (no verified claim depends on the
identifier beyond its `memory_` prefix). -/
def memIdStr (memory : Bag) : String :=
  match lookupBag memory "id" with
  | some (Val.str s) => s
  | some v => jsonDump v
  | none => jsonDump (Val.dict memory)

/-- `memory.get('people', [])`. -/
def memPeople (memory : Bag) : List Val :=
  match lookupBag memory "people" with
  | some (Val.list l) => l
  | _ => []

/-- The name of one entry of a memory's `people` list (a string in the data
model; any other shape is rendered as Python's f-string would). -/
def personName (person : Val) : String :=
  match person with
  | Val.str s => s
  | v => jsonDump v

/-- One iteration of the memory-people loop of `construct_memory_network`:
add an `involves` edge only when the person node already exists, otherwise do
nothing (`if person_id in G`). -/
def addMemoryPerson (memory_id : String) (G : Graph) (person : Val) : Graph :=
  if hasNode G ("person_" ++ personName person) then
    addEdge G memory_id ("person_" ++ personName person) "involves"
  else G

/-- One iteration of the memories loop of `construct_memory_network`:
add the memory node, then connect the people it references. -/
def addMemory (G : Graph) (memory : Bag) : Graph :=
  (memPeople memory).foldl (addMemoryPerson ("memory_" ++ memIdStr memory))
    (addNode G ("memory_" ++ memIdStr memory) (("type", Val.str "memory") :: memory))

/-- Embeds `MemoryGraphManager.construct_memory_network` of
`new_adaptive_agent.py`: the activities loop (with participants) followed by
the memories loop (with edges only to already-existing person nodes).
`AdaptiveDialogueAgent.construct_memory_networks` is the same computation with
the memories drawn from the interviews' nested lists. -/
def construct_memory_network (activities memories : List Bag) : Graph :=
  memories.foldl addMemory (activities.foldl addActivity Graph.empty)

/-- The node identifiers of a graph, in insertion order. -/
def keys (G : Graph) : List String := G.nodes.map Prod.fst

theorem hasNode_iff {G : Graph} {q : String} : hasNode G q = true ↔ q ∈ keys G := by
  constructor
  · intro h
    obtain ⟨nb, hmem, hq⟩ := List.any_eq_true.mp h
    exact List.mem_map.mpr ⟨nb, hmem, by simpa using hq⟩
  · intro h
    obtain ⟨nb, hmem, hq⟩ := List.mem_map.mp h
    exact List.any_eq_true.mpr ⟨nb, hmem, by simpa using hq⟩

theorem hasNode_false_iff {G : Graph} {q : String} :
    hasNode G q = false ↔ q ∉ keys G := by
  rw [← Bool.not_eq_true, not_iff_not]
  exact hasNode_iff

theorem ensureNode_edges (G : Graph) (i : String) : (ensureNode G i).edges = G.edges := by
  unfold ensureNode
  split <;> rfl

theorem addEdge_edges (G : Graph) (u v ty : String) :
    (addEdge G u v ty).edges = G.edges ++ [(u, v, ty)] := by
  unfold addEdge
  rw [ensureNode_edges, ensureNode_edges]

theorem addNode_edges (G : Graph) (i : String) (b : Bag) :
    (addNode G i b).edges = G.edges := by
  unfold addNode
  split <;> rfl

theorem keys_ensureNode_pos {G : Graph} {i : String} (h : hasNode G i = true) :
    keys (ensureNode G i) = keys G := by
  unfold ensureNode
  rw [if_pos h]

theorem keys_ensureNode_neg {G : Graph} {i : String} (h : hasNode G i = false) :
    keys (ensureNode G i) = keys G ++ [i] := by
  unfold ensureNode
  rw [if_neg (by simp [h])]
  simp [keys]

theorem keys_addNode_pos {G : Graph} {i : String} (b : Bag) (h : hasNode G i = true) :
    keys (addNode G i b) = keys G := by
  unfold addNode
  rw [if_pos h]
  show (G.nodes.map _).map Prod.fst = _
  rw [List.map_map]
  exact List.map_congr_left fun nb _ => by
    by_cases hi : nb.1 = i <;> simp [hi]

theorem keys_addNode_neg {G : Graph} {i : String} (b : Bag) (h : hasNode G i = false) :
    keys (addNode G i b) = keys G ++ [i] := by
  unfold addNode
  rw [if_neg (by simp [h])]
  simp [keys]

theorem mem_keys_ensureNode {G : Graph} {i q : String} :
    q ∈ keys (ensureNode G i) ↔ q ∈ keys G ∨ q = i := by
  by_cases h : hasNode G i = true
  · rw [keys_ensureNode_pos h]
    constructor
    · exact Or.inl
    · rintro (hq | rfl)
      · exact hq
      · exact hasNode_iff.mp h
  · rw [keys_ensureNode_neg (by simpa using h)]
    simp

theorem mem_keys_addNode {G : Graph} {i q : String} {b : Bag} :
    q ∈ keys (addNode G i b) ↔ q ∈ keys G ∨ q = i := by
  by_cases h : hasNode G i = true
  · rw [keys_addNode_pos b h]
    constructor
    · exact Or.inl
    · rintro (hq | rfl)
      · exact hq
      · exact hasNode_iff.mp h
  · rw [keys_addNode_neg b (by simpa using h)]
    simp

theorem mem_keys_addEdge {G : Graph} {u v ty q : String} :
    q ∈ keys (addEdge G u v ty) ↔ q ∈ keys G ∨ q = u ∨ q = v := by
  show q ∈ keys (ensureNode (ensureNode G u) v) ↔ _
  rw [mem_keys_ensureNode, mem_keys_ensureNode]
  tauto

theorem nodup_keys_ensureNode {G : Graph} (i : String) (h : (keys G).Nodup) :
    (keys (ensureNode G i)).Nodup := by
  by_cases hi : hasNode G i = true
  · rwa [keys_ensureNode_pos hi]
  · rw [keys_ensureNode_neg (by simpa using hi)]
    simp only [List.nodup_append, List.nodup_cons, List.nodup_nil]
    exact ⟨h, by simp, fun a ha hb => hasNode_false_iff.mp (by simpa using hi) ((List.mem_singleton.mp hb) ▸ ha)⟩

theorem nodup_keys_addNode {G : Graph} (i : String) (b : Bag) (h : (keys G).Nodup) :
    (keys (addNode G i b)).Nodup := by
  by_cases hi : hasNode G i = true
  · rwa [keys_addNode_pos b hi]
  · rw [keys_addNode_neg b (by simpa using hi)]
    simp only [List.nodup_append, List.nodup_cons, List.nodup_nil]
    exact ⟨h, by simp, fun a ha hb => hasNode_false_iff.mp (by simpa using hi) ((List.mem_singleton.mp hb) ▸ ha)⟩

theorem nodup_keys_addEdge {G : Graph} (u v ty : String) (h : (keys G).Nodup) :
    (keys (addEdge G u v ty)).Nodup := by
  show (keys (ensureNode (ensureNode G u) v)).Nodup
  exact nodup_keys_ensureNode v (nodup_keys_ensureNode u h)

theorem string_append_right_inj (s : String) {a b : String} (h : s ++ a = s ++ b) :
    a = b := by
  have h2 : s.data ++ a.data = s.data ++ b.data := by
    rw [← String.data_append, ← String.data_append, h]
  exact String.ext (List.append_cancel_left h2)

theorem activityId_ne_personId (x y : String) : "activity_" ++ x ≠ "person_" ++ y := by
  intro h
  have h2 : ("activity_" ++ x).data.head? = ("person_" ++ y).data.head? := by rw [h]
  rw [String.data_append, String.data_append] at h2
  have ha : ("activity_".data ++ x.data).head? = some 'a' := rfl
  have hp : ("person_".data ++ y.data).head? = some 'p' := rfl
  rw [ha, hp] at h2
  exact absurd (Option.some.inj h2) (by decide)

theorem activityId_ne_memoryId (x y : String) : "activity_" ++ x ≠ "memory_" ++ y := by
  intro h
  have h2 : ("activity_" ++ x).data.head? = ("memory_" ++ y).data.head? := by rw [h]
  rw [String.data_append, String.data_append] at h2
  have ha : ("activity_".data ++ x.data).head? = some 'a' := rfl
  have hp : ("memory_".data ++ y.data).head? = some 'm' := rfl
  rw [ha, hp] at h2
  exact absurd (Option.some.inj h2) (by decide)

theorem memoryId_ne_personId (x y : String) : "memory_" ++ x ≠ "person_" ++ y := by
  intro h
  have h2 : ("memory_" ++ x).data.head? = ("person_" ++ y).data.head? := by rw [h]
  rw [String.data_append, String.data_append] at h2
  have ha : ("memory_".data ++ x.data).head? = some 'm' := rfl
  have hp : ("person_".data ++ y.data).head? = some 'p' := rfl
  rw [ha, hp] at h2
  exact absurd (Option.some.inj h2) (by decide)

/-- Every edge endpoint is present as a node (the spec's no-orphan-edges
post-condition). -/
def orphanFree (G : Graph) : Prop :=
  ∀ e ∈ G.edges, hasNode G e.1 = true ∧ hasNode G e.2.1 = true

theorem orphanFree_addNode {G : Graph} (h : orphanFree G) (i : String) (b : Bag) :
    orphanFree (addNode G i b) := by
  intro e he
  rw [addNode_edges] at he
  obtain ⟨h1, h2⟩ := h e he
  exact ⟨hasNode_iff.mpr (mem_keys_addNode.mpr (Or.inl (hasNode_iff.mp h1))),
    hasNode_iff.mpr (mem_keys_addNode.mpr (Or.inl (hasNode_iff.mp h2)))⟩

theorem orphanFree_addEdge {G : Graph} (h : orphanFree G) (u v ty : String) :
    orphanFree (addEdge G u v ty) := by
  intro e he
  rw [addEdge_edges] at he
  rcases List.mem_append.mp he with hmem | hnew
  · obtain ⟨h1, h2⟩ := h e hmem
    exact ⟨hasNode_iff.mpr (mem_keys_addEdge.mpr (Or.inl (hasNode_iff.mp h1))),
      hasNode_iff.mpr (mem_keys_addEdge.mpr (Or.inl (hasNode_iff.mp h2)))⟩
  · obtain rfl := List.mem_singleton.mp hnew
    exact ⟨hasNode_iff.mpr (mem_keys_addEdge.mpr (Or.inr (Or.inl rfl))),
      hasNode_iff.mpr (mem_keys_addEdge.mpr (Or.inr (Or.inr rfl)))⟩

theorem foldl_preserves {α : Type} (P : Graph → Prop) (f : Graph → α → Graph)
    (hf : ∀ G a, P G → P (f G a)) (l : List α) :
    ∀ G, P G → P (l.foldl f G) := by
  induction l with
  | nil => exact fun G h => h
  | cons x rest ih => exact fun G h => ih (f G x) (hf G x h)

theorem orphanFree_addParticipant {G : Graph} (aid : String) (p : Val)
    (h : orphanFree G) : orphanFree (addParticipant aid G p) :=
  orphanFree_addEdge (orphanFree_addNode h _ _) _ _ _

theorem orphanFree_addActivity {G : Graph} (a : Bag) (h : orphanFree G) :
    orphanFree (addActivity G a) :=
  foldl_preserves orphanFree _
    (fun _G p hp => orphanFree_addParticipant _ p hp) _ _
    (orphanFree_addNode h _ _)

theorem orphanFree_addMemoryPerson {G : Graph} (mid : String) (p : Val)
    (h : orphanFree G) : orphanFree (addMemoryPerson mid G p) := by
  unfold addMemoryPerson
  split
  · exact orphanFree_addEdge h _ _ _
  · exact h

theorem orphanFree_addMemory {G : Graph} (m : Bag) (h : orphanFree G) :
    orphanFree (addMemory G m) :=
  foldl_preserves orphanFree _
    (fun _G p hp => orphanFree_addMemoryPerson _ p hp) _ _
    (orphanFree_addNode h _ _)

/-- C7: an edge from a Memory node to a person is created only when a Person
node with that name already exists (a reference to an absent person changes
nothing: zero edges, zero nodes), and consequently every edge of the built
graph has both endpoints present as nodes. -/
theorem C7_no_orphan_edges :
    (∀ activities memories, orphanFree (construct_memory_network activities memories)) ∧
    (∀ (G : Graph) (memory_id : String) (person : Val),
      hasNode G ("person_" ++ personName person) = false →
      addMemoryPerson memory_id G person = G) := by
  constructor
  · intro activities memories
    unfold construct_memory_network
    refine foldl_preserves orphanFree _ (fun G m hm => orphanFree_addMemory m hm) _ _ ?_
    refine foldl_preserves orphanFree _ (fun G a ha => orphanFree_addActivity a ha) _ _ ?_
    intro e he
    exact absurd he (List.not_mem_nil e)
  · intro G memory_id person h
    unfold addMemoryPerson
    rw [if_neg (by simp [h])]

/-- Witness for C7: the no-orphan-edge invariant on a concrete build, and the
skip behaviour of a concrete dangling person reference. -/
theorem C7_no_orphan_edges_witness :
    orphanFree (construct_memory_network [breakfastActivity] []) ∧
    addMemoryPerson "memory_1" Graph.empty (Val.str "Tom") = Graph.empty :=
  ⟨C7_no_orphan_edges.1 [breakfastActivity] [],
    C7_no_orphan_edges.2 Graph.empty "memory_1" (Val.str "Tom") rfl⟩

/-- How many nodes of the graph carry the given identifier. -/
def nodeCount (G : Graph) (node_id : String) : Nat :=
  G.nodes.countP fun nb => nb.1 == node_id

/-- How many `involves` edges are incident (as source or destination) to the
given node identifier. -/
def edgeCountAt (G : Graph) (node_id : String) : Nat :=
  G.edges.countP fun e => (e.1 == node_id || e.2.1 == node_id) && e.2.2 == "involves"

/-- How many participant entries named `n` occur across all the routine's
activities (one per co-occurrence). -/
def occCount (activities : List Bag) (n : String) : Nat :=
  (activities.flatMap actParticipants).countP fun p => pname p == n

theorem person_beq (a b : String) : ("person_" ++ a == "person_" ++ b) = (a == b) := by
  by_cases h : a = b
  · simp [h]
  · have hne : ("person_" ++ a) ≠ ("person_" ++ b) :=
      fun hc => h (string_append_right_inj _ hc)
    simp [h, hne]

theorem nodeCount_eq_count (G : Graph) (q : String) :
    nodeCount G q = (keys G).count q := by
  unfold nodeCount keys
  rw [List.count_eq_countP, List.countP_map]
  rfl

theorem nodeCount_of_nodup (G : Graph) (q : String) (hn : (keys G).Nodup)
    (h : hasNode G q = true) : nodeCount G q = 1 := by
  rw [nodeCount_eq_count]
  have hle := List.nodup_iff_count_le_one.mp hn q
  have hge := List.count_pos_iff.mpr (hasNode_iff.mp h)
  omega

theorem nodup_keys_addParticipant {G : Graph} (aid : String) (p : Val)
    (h : (keys G).Nodup) : (keys (addParticipant aid G p)).Nodup :=
  nodup_keys_addEdge _ _ _ (nodup_keys_addNode _ _ h)

theorem nodup_keys_addActivity {G : Graph} (a : Bag) (h : (keys G).Nodup) :
    (keys (addActivity G a)).Nodup :=
  foldl_preserves (fun G2 => (keys G2).Nodup) _
    (fun _ p hp => nodup_keys_addParticipant _ p hp) _ _
    (nodup_keys_addNode _ _ h)

theorem nodup_keys_addMemoryPerson {G : Graph} (mid : String) (p : Val)
    (h : (keys G).Nodup) : (keys (addMemoryPerson mid G p)).Nodup := by
  unfold addMemoryPerson
  split
  · exact nodup_keys_addEdge _ _ _ h
  · exact h

theorem nodup_keys_addMemory {G : Graph} (m : Bag) (h : (keys G).Nodup) :
    (keys (addMemory G m)).Nodup :=
  foldl_preserves (fun G2 => (keys G2).Nodup) _
    (fun _ p hp => nodup_keys_addMemoryPerson _ p hp) _ _
    (nodup_keys_addNode _ _ h)

theorem nodup_keys_construct (activities memories : List Bag) :
    (keys (construct_memory_network activities memories)).Nodup := by
  unfold construct_memory_network
  refine foldl_preserves (fun G2 => (keys G2).Nodup) _
    (fun _ m hm => nodup_keys_addMemory m hm) _ _ ?_
  refine foldl_preserves (fun G2 => (keys G2).Nodup) _
    (fun _ a ha => nodup_keys_addActivity a ha) _ _ ?_
  simp [keys, Graph.empty]

theorem mem_keys_addParticipant {G : Graph} {aid : String} {p : Val} {q : String} :
    q ∈ keys (addParticipant aid G p) ↔
      q ∈ keys G ∨ q = "person_" ++ pname p ∨ q = aid := by
  unfold addParticipant
  rw [mem_keys_addEdge, mem_keys_addNode]
  tauto

theorem mem_keys_partFold (ps : List Val) (aid : String) :
    ∀ G : Graph, aid ∈ keys G → ∀ q,
      (q ∈ keys (ps.foldl (addParticipant aid) G) ↔
        q ∈ keys G ∨ ∃ p ∈ ps, q = "person_" ++ pname p) := by
  induction ps with
  | nil => intro G _ q; simp
  | cons p rest ih =>
    intro G haid q
    rw [List.foldl_cons,
      ih _ (mem_keys_addParticipant.mpr (Or.inl haid)) q, mem_keys_addParticipant]
    constructor
    · rintro ((hq | hq | rfl) | ⟨p', hp', hq⟩)
      · exact Or.inl hq
      · exact Or.inr ⟨p, List.mem_cons_self p rest, hq⟩
      · exact Or.inl haid
      · exact Or.inr ⟨p', List.mem_cons_of_mem _ hp', hq⟩
    · rintro (hq | ⟨p', hp', hq⟩)
      · exact Or.inl (Or.inl hq)
      · rcases List.mem_cons.mp hp' with rfl | hp''
        · exact Or.inl (Or.inr (Or.inl hq))
        · exact Or.inr ⟨p', hp'', hq⟩

theorem mem_keys_addActivity {G : Graph} {a : Bag} {q : String} :
    q ∈ keys (addActivity G a) ↔
      q ∈ keys G ∨ q = "activity_" ++ actLabel a ∨
        ∃ p ∈ actParticipants a, q = "person_" ++ pname p := by
  unfold addActivity
  rw [mem_keys_partFold _ _ _ (mem_keys_addNode.mpr (Or.inr rfl)) q, mem_keys_addNode]
  tauto

theorem mem_keys_actFold (activities : List Bag) :
    ∀ G : Graph, ∀ q,
      (q ∈ keys (activities.foldl addActivity G) ↔
        q ∈ keys G ∨ ∃ a ∈ activities, q = "activity_" ++ actLabel a ∨
          ∃ p ∈ actParticipants a, q = "person_" ++ pname p) := by
  induction activities with
  | nil => intro G q; simp
  | cons a rest ih =>
    intro G q
    rw [List.foldl_cons, ih _ q, mem_keys_addActivity]
    constructor
    · rintro ((hq | hq) | ⟨a', ha', hq⟩)
      · exact Or.inl hq
      · exact Or.inr ⟨a, List.mem_cons_self a rest, hq⟩
      · exact Or.inr ⟨a', List.mem_cons_of_mem _ ha', hq⟩
    · rintro (hq | ⟨a', ha', hq⟩)
      · exact Or.inl (Or.inl hq)
      · rcases List.mem_cons.mp ha' with rfl | ha''
        · exact Or.inl (Or.inr hq)
        · exact Or.inr ⟨a', ha'', hq⟩

theorem edges_addParticipant (aid : String) (G : Graph) (p : Val) :
    (addParticipant aid G p).edges =
      G.edges ++ [(aid, "person_" ++ pname p, "involves")] := by
  unfold addParticipant
  rw [addEdge_edges, addNode_edges]

theorem edges_partFold (ps : List Val) (aid : String) :
    ∀ G : Graph, (ps.foldl (addParticipant aid) G).edges =
      G.edges ++ ps.map fun p => (aid, "person_" ++ pname p, "involves") := by
  induction ps with
  | nil => intro G; simp
  | cons p rest ih =>
    intro G
    rw [List.foldl_cons, ih, edges_addParticipant]
    simp

theorem edges_addActivity (G : Graph) (a : Bag) :
    (addActivity G a).edges = G.edges ++ (actParticipants a).map
      fun p => ("activity_" ++ actLabel a, "person_" ++ pname p, "involves") := by
  unfold addActivity
  rw [edges_partFold, addNode_edges]

theorem edges_actFold (activities : List Bag) :
    ∀ G : Graph, (activities.foldl addActivity G).edges =
      G.edges ++ activities.flatMap fun a => (actParticipants a).map
        fun p => ("activity_" ++ actLabel a, "person_" ++ pname p, "involves") := by
  induction activities with
  | nil => intro G; simp
  | cons a rest ih =>
    intro G
    rw [List.foldl_cons, ih, edges_addActivity, List.flatMap_cons]
    simp

theorem countP_flatMap {α β : Type} (f : α → List β) (p : β → Bool) (l : List α) :
    (l.flatMap f).countP p = (l.map fun a => (f a).countP p).sum := by
  induction l with
  | nil => simp
  | cons a rest ih => simp [List.flatMap_cons, List.countP_append, ih]

/-- C6: whenever a participant name occurs in exactly two participant entries
of the routine (in particular when it appears in two different activities),
the graph built from that routine contains exactly one Person node for the
name — identity is the name string — and that node has exactly two incident
`involves` edges, one per co-occurrence. -/
theorem C6_person_identity_by_name (activities : List Bag) (n : String)
    (h : occCount activities n = 2) :
    nodeCount (construct_memory_network activities []) ("person_" ++ n) = 1 ∧
    edgeCountAt (construct_memory_network activities []) ("person_" ++ n) = 2 := by
  have hG : construct_memory_network activities [] =
      activities.foldl addActivity Graph.empty := rfl
  constructor
  · apply nodeCount_of_nodup _ _ (nodup_keys_construct activities [])
    apply hasNode_iff.mpr
    rw [hG, mem_keys_actFold]
    have hpos : 0 < occCount activities n := by omega
    obtain ⟨p, hpmem, hp⟩ := List.countP_pos_iff.mp hpos
    obtain ⟨a, hamem, hpa⟩ := List.mem_flatMap.mp hpmem
    have hpn : pname p = n := by simpa using hp
    exact Or.inr ⟨a, hamem, Or.inr ⟨p, hpa, by rw [hpn]⟩⟩
  · unfold edgeCountAt
    rw [hG, edges_actFold]
    show (List.nil ++ _).countP _ = 2
    rw [List.nil_append, countP_flatMap]
    have hcong : ∀ a : Bag,
        ((actParticipants a).map fun p =>
          ("activity_" ++ actLabel a, "person_" ++ pname p, "involves")).countP
          (fun e => (e.1 == "person_" ++ n || e.2.1 == "person_" ++ n) &&
            e.2.2 == "involves") =
        (actParticipants a).countP fun p => pname p == n := by
      intro a
      rw [List.countP_map]
      apply List.countP_congr
      intro p _
      show ((("activity_" ++ actLabel a) == "person_" ++ n ||
        ("person_" ++ pname p) == "person_" ++ n) && ("involves" == "involves")) = true ↔
        (pname p == n) = true
      have h1 : (("activity_" ++ actLabel a) == "person_" ++ n) = false := by
        simp only [beq_eq_false_iff_ne]
        exact activityId_ne_personId _ _
      rw [h1, person_beq]
      simp
    rw [List.map_congr_left fun a _ => hcong a]
    have h2 := countP_flatMap actParticipants (fun p => pname p == n) activities
    unfold occCount at h
    omega

/-- A concrete routine activity: lunch with participant Mary. -/
def maryLunch : Bag :=
  [("activity", Val.str "Lunch"),
   ("participants", Val.list [Val.dict [("name", Val.str "Mary"),
     ("role", Val.str "daughter")]])]

/-- A concrete routine activity: a walk with participant Mary. -/
def maryWalk : Bag :=
  [("activity", Val.str "Walk"),
   ("participants", Val.list [Val.dict [("name", Val.str "Mary"),
     ("role", Val.str "daughter")]])]

/-- Witness for C6: Mary in two different activities yields one Person node
with two incident `involves` edges. -/
theorem C6_person_identity_by_name_witness :
    occCount [maryLunch, maryWalk] "Mary" = 2 ∧
    nodeCount (construct_memory_network [maryLunch, maryWalk] []) ("person_" ++ "Mary") = 1 ∧
    edgeCountAt (construct_memory_network [maryLunch, maryWalk] []) ("person_" ++ "Mary") = 2 :=
  ⟨rfl, C6_person_identity_by_name [maryLunch, maryWalk] "Mary" rfl⟩

/-- Association lookup on a graph's node list (first binding of the key). -/
def findBag : List (String × Bag) → String → Option Bag
  | [], _ => none
  | nb :: rest, q => if nb.1 = q then some nb.2 else findBag rest q

/-- The attribute bag stored at a node identifier, when the node exists. -/
def nodeBag (G : Graph) (q : String) : Option Bag := findBag G.nodes q

theorem findBag_append (l1 l2 : List (String × Bag)) (q : String) :
    findBag (l1 ++ l2) q = (findBag l1 q).orElse fun _ => findBag l2 q := by
  induction l1 with
  | nil => simp [findBag]
  | cons nb rest ih =>
    by_cases h : nb.1 = q <;> simp [findBag, h, ih]

theorem findBag_isSome_iff (l : List (String × Bag)) (q : String) :
    (findBag l q).isSome = true ↔ q ∈ l.map Prod.fst := by
  induction l with
  | nil => simp [findBag]
  | cons nb rest ih =>
    unfold findBag
    by_cases h : nb.1 = q
    · simp [h]
    · rw [if_neg h, List.map_cons, List.mem_cons, ih]
      constructor
      · exact Or.inr
      · rintro (hc | hm)
        · exact absurd hc.symm h
        · exact hm

theorem nodeBag_isSome_iff {G : Graph} {q : String} :
    (nodeBag G q).isSome = true ↔ hasNode G q = true := by
  rw [hasNode_iff]
  exact findBag_isSome_iff G.nodes q

theorem findBag_map_update (l : List (String × Bag)) (i : String) (b : Bag) (q : String) :
    findBag (l.map fun nb => if nb.1 = i then (nb.1, bagUpdate nb.2 b) else nb) q =
      if q = i then (findBag l q).map (fun old => bagUpdate old b) else findBag l q := by
  induction l with
  | nil => simp [findBag]
  | cons nb rest ih =>
    by_cases h1 : nb.1 = i
    · by_cases h2 : nb.1 = q
      · have hqi : q = i := h2 ▸ h1
        simp [findBag, h1, h2, hqi]
      · have hiq : ¬ i = q := fun hc => h2 (h1.trans hc)
        have hqi : ¬ q = i := fun hc => hiq hc.symm
        simp [findBag, h1, h2, hiq, hqi, ih]
    · by_cases h2 : nb.1 = q
      · have hqi : q ≠ i := fun hc => h1 (h2.trans hc)
        simp [findBag, h1, h2, hqi]
      · simp [findBag, h1, h2, ih]

theorem nodeBag_addNode_other {G : Graph} {i q : String} (b : Bag) (h : q ≠ i) :
    nodeBag (addNode G i b) q = nodeBag G q := by
  unfold addNode
  by_cases hi : hasNode G i = true
  · rw [if_pos hi]
    show findBag _ q = _
    rw [findBag_map_update, if_neg h]
    rfl
  · rw [if_neg hi]
    show findBag (G.nodes ++ [(i, b)]) q = _
    rw [findBag_append]
    have h0 : findBag [(i, b)] q = none := by
      simp [findBag, Ne.symm h]
    rw [h0]
    exact Option.orElse_none _

theorem nodeBag_addNode_new {G : Graph} {i : String} (b : Bag)
    (h : hasNode G i = false) : nodeBag (addNode G i b) i = some b := by
  unfold addNode
  rw [if_neg (by simp [h])]
  show findBag (G.nodes ++ [(i, b)]) i = some b
  rw [findBag_append]
  have h0 : findBag G.nodes i = none := by
    cases hfb : findBag G.nodes i with
    | none => rfl
    | some v =>
      have : hasNode G i = true :=
        hasNode_iff.mpr ((findBag_isSome_iff G.nodes i).mp (by simp [hfb]))
      rw [h] at this
      cases this
  rw [h0]
  simp [findBag]

theorem nodeBag_addNode_upd {G : Graph} {i : String} {old : Bag} (b : Bag)
    (h : nodeBag G i = some old) :
    nodeBag (addNode G i b) i = some (bagUpdate old b) := by
  have hi : hasNode G i = true := nodeBag_isSome_iff.mp (by simp [h])
  unfold addNode
  rw [if_pos hi]
  show findBag _ i = _
  rw [findBag_map_update, if_pos rfl]
  show (nodeBag G i).map _ = _
  rw [h]
  rfl

theorem nodeBag_ensureNode {G : Graph} {q : String} (i : String)
    (h : (nodeBag G q).isSome = true) :
    nodeBag (ensureNode G i) q = nodeBag G q := by
  unfold ensureNode
  split
  · rfl
  · show findBag (G.nodes ++ [(i, [])]) q = _
    rw [findBag_append]
    obtain ⟨v, hv⟩ := Option.isSome_iff_exists.mp h
    show (findBag G.nodes q).orElse _ = findBag G.nodes q
    rw [show findBag G.nodes q = some v from hv]
    rfl

theorem nodeBag_addEdge {G : Graph} {q : String} (u v ty : String)
    (h : (nodeBag G q).isSome = true) :
    nodeBag (addEdge G u v ty) q = nodeBag G q := by
  have h1 : nodeBag (ensureNode G u) q = nodeBag G q := nodeBag_ensureNode u h
  have h2 : (nodeBag (ensureNode G u) q).isSome = true := by rw [h1]; exact h
  show nodeBag (ensureNode (ensureNode G u) v) q = _
  rw [nodeBag_ensureNode v h2, h1]

theorem nodeBag_addParticipant {G : Graph} (aid : String) {q : String} (p : Val)
    (hq : ∀ y, q ≠ "person_" ++ y) (h : (nodeBag G q).isSome = true) :
    nodeBag (addParticipant aid G p) q = nodeBag G q := by
  unfold addParticipant
  have h1 : nodeBag (addNode G ("person_" ++ pname p)
      (("type", Val.str "person") :: pbag p)) q = nodeBag G q :=
    nodeBag_addNode_other _ (hq (pname p))
  rw [nodeBag_addEdge _ _ _ (by rw [h1]; exact h), h1]

theorem nodeBag_partFold (ps : List Val) (aid : String) {q : String}
    (hq : ∀ y, q ≠ "person_" ++ y) :
    ∀ G : Graph, (nodeBag G q).isSome = true →
      nodeBag (ps.foldl (addParticipant aid) G) q = nodeBag G q := by
  induction ps with
  | nil => intro G _; rfl
  | cons p rest ih =>
    intro G h
    rw [List.foldl_cons]
    have h1 := nodeBag_addParticipant aid p hq h
    rw [ih _ (by rw [h1]; exact h), h1]

theorem nodeBag_ensureNode_other {G : Graph} {i q : String} (h : i ≠ q) :
    nodeBag (ensureNode G i) q = nodeBag G q := by
  unfold ensureNode
  split
  · rfl
  · show findBag (G.nodes ++ [(i, [])]) q = _
    rw [findBag_append]
    have h0 : findBag [(i, [])] q = none := by
      simp [findBag, h]
    rw [h0]
    exact Option.orElse_none _

theorem nodeBag_addEdge_other {G : Graph} {q : String} (u v ty : String)
    (hu : u ≠ q) (hv : v ≠ q) :
    nodeBag (addEdge G u v ty) q = nodeBag G q := by
  show nodeBag (ensureNode (ensureNode G u) v) q = _
  rw [nodeBag_ensureNode_other hv, nodeBag_ensureNode_other hu]

theorem nodeBag_addParticipant_other {G : Graph} {aid q : String} (p : Val)
    (hq : ∀ y, q ≠ "person_" ++ y) (haid : aid ≠ q) :
    nodeBag (addParticipant aid G p) q = nodeBag G q := by
  unfold addParticipant
  rw [nodeBag_addEdge_other _ _ _ haid (fun hc => hq (pname p) hc.symm),
    nodeBag_addNode_other _ (hq (pname p))]

theorem nodeBag_partFold_other (ps : List Val) (aid : String) {q : String}
    (hq : ∀ y, q ≠ "person_" ++ y) (haid : aid ≠ q) :
    ∀ G : Graph, nodeBag (ps.foldl (addParticipant aid) G) q = nodeBag G q := by
  induction ps with
  | nil => intro G; rfl
  | cons p rest ih =>
    intro G
    rw [List.foldl_cons, ih, nodeBag_addParticipant_other p hq haid]

theorem nodeBag_addActivity_other {G : Graph} {q : String} (a : Bag)
    (hq : ∀ y, q ≠ "person_" ++ y) (hlab : "activity_" ++ actLabel a ≠ q) :
    nodeBag (addActivity G a) q = nodeBag G q := by
  unfold addActivity
  rw [nodeBag_partFold_other _ _ hq hlab, nodeBag_addNode_other _ (Ne.symm hlab)]

theorem nodeBag_actFold_other {q : String} (hq : ∀ y, q ≠ "person_" ++ y) :
    ∀ (acts : List Bag) (G : Graph),
      (∀ a ∈ acts, "activity_" ++ actLabel a ≠ q) →
      nodeBag (acts.foldl addActivity G) q = nodeBag G q := by
  intro acts
  induction acts with
  | nil => intro G _; rfl
  | cons a rest ih =>
    intro G hlabs
    rw [List.foldl_cons, ih _ (fun b hb => hlabs b (List.mem_cons_of_mem _ hb)),
      nodeBag_addActivity_other a hq (hlabs a (List.mem_cons_self a rest))]

theorem nodeBag_addMemoryPerson_other {G : Graph} {mid q : String} (p : Val)
    (hq : ∀ y, q ≠ "person_" ++ y) (hmid : mid ≠ q) :
    nodeBag (addMemoryPerson mid G p) q = nodeBag G q := by
  unfold addMemoryPerson
  split
  · exact nodeBag_addEdge_other _ _ _ hmid (fun hc => hq (personName p) hc.symm)
  · rfl

theorem nodeBag_memPersonFold_other (ps : List Val) (mid : String) {q : String}
    (hq : ∀ y, q ≠ "person_" ++ y) (hmid : mid ≠ q) :
    ∀ G : Graph, nodeBag (ps.foldl (addMemoryPerson mid) G) q = nodeBag G q := by
  induction ps with
  | nil => intro G; rfl
  | cons p rest ih =>
    intro G
    rw [List.foldl_cons, ih, nodeBag_addMemoryPerson_other p hq hmid]

theorem nodeBag_addMemory_other {G : Graph} {q : String} (m : Bag)
    (hq : ∀ y, q ≠ "person_" ++ y) (hmem : ∀ x, q ≠ "memory_" ++ x) :
    nodeBag (addMemory G m) q = nodeBag G q := by
  unfold addMemory
  rw [nodeBag_memPersonFold_other _ _ hq (fun hc => hmem (memIdStr m) hc.symm),
    nodeBag_addNode_other _ (hmem (memIdStr m))]

theorem nodeBag_memFold_other {q : String} (hq : ∀ y, q ≠ "person_" ++ y)
    (hmem : ∀ x, q ≠ "memory_" ++ x) :
    ∀ (ms : List Bag) (G : Graph), nodeBag (ms.foldl addMemory G) q = nodeBag G q := by
  intro ms
  induction ms with
  | nil => intro G; rfl
  | cons m rest ih =>
    intro G
    rw [List.foldl_cons, ih, nodeBag_addMemory_other m hq hmem]

theorem nodeBag_addActivity_self {G : Graph} (a : Bag)
    (h : hasNode G ("activity_" ++ actLabel a) = false) :
    nodeBag (addActivity G a) ("activity_" ++ actLabel a) =
      some (("type", Val.str "activity") :: a) := by
  unfold addActivity
  have h1 : nodeBag (addNode G ("activity_" ++ actLabel a)
      (("type", Val.str "activity") :: a)) ("activity_" ++ actLabel a) =
      some (("type", Val.str "activity") :: a) := nodeBag_addNode_new _ h
  rw [nodeBag_partFold _ _ (fun y => activityId_ne_personId (actLabel a) y) _
    (by rw [h1]; rfl), h1]

theorem nodeBag_addActivity_upd {G : Graph} (a : Bag) {old : Bag} {L : String}
    (hlab : actLabel a = L) (h : nodeBag G ("activity_" ++ L) = some old) :
    nodeBag (addActivity G a) ("activity_" ++ L) =
      some (bagUpdate old (("type", Val.str "activity") :: a)) := by
  unfold addActivity
  rw [hlab]
  have h1 := nodeBag_addNode_upd (("type", Val.str "activity") :: a) h
  rw [nodeBag_partFold _ _ (fun y => activityId_ne_personId L y) _
    (by rw [h1]; rfl), h1]

theorem lookupBag_isSome_of_mem : ∀ (b : Bag) (k : String),
    k ∈ b.map Prod.fst → (lookupBag b k).isSome = true := by
  intro b
  induction b with
  | nil => intro k hk; cases hk
  | cons kv rest ih =>
    intro k hk
    unfold lookupBag
    by_cases h : kv.1 = k
    · rw [if_pos h]; rfl
    · rw [if_neg h]
      rw [List.map_cons, List.mem_cons] at hk
      rcases hk with hc | hmem
      · exact absurd hc.symm h
      · exact ih k hmem

theorem bagUpdate_filter_nil (old new : Bag)
    (hsub : ∀ k ∈ new.map Prod.fst, k ∈ old.map Prod.fst) :
    (new.filter fun kv => (lookupBag old kv.1).isNone) = [] := by
  rw [List.filter_eq_nil_iff]
  intro kv hmem
  have hs := lookupBag_isSome_of_mem old kv.1
    (hsub _ (List.mem_map.mpr ⟨kv, hmem, rfl⟩))
  obtain ⟨v, hv⟩ := Option.isSome_iff_exists.mp hs
  simp [hv]

theorem bagUpdate_map_eq : ∀ (old new : Bag),
    old.map Prod.fst = new.map Prod.fst → (new.map Prod.fst).Nodup →
    (old.map fun kv =>
      match lookupBag new kv.1 with
      | some v => (kv.1, v)
      | none => kv) = new := by
  intro old
  induction old with
  | nil =>
    intro new hk _
    rw [List.map_nil]
    exact (List.map_eq_nil_iff.mp hk.symm).symm ▸ rfl
  | cons kv old' ih =>
    intro new hk hn
    cases new with
    | nil => exact absurd hk (by simp)
    | cons kv2 new' =>
      simp only [List.map_cons, List.cons.injEq] at hk
      obtain ⟨h1, h2⟩ := hk
      simp only [List.map_cons, List.nodup_cons] at hn
      obtain ⟨hnotin, hn'⟩ := hn
      rw [List.map_cons]
      congr 1
      · show (match lookupBag (kv2 :: new') kv.1 with
          | some v => (kv.1, v)
          | none => kv) = kv2
        have hl : lookupBag (kv2 :: new') kv.1 = some kv2.2 := by
          show (if kv2.1 = kv.1 then some kv2.2 else lookupBag new' kv.1) = some kv2.2
          rw [if_pos h1.symm]
        rw [hl]
        show (kv.1, kv2.2) = kv2
        rw [h1]
      · have hcong : (old'.map fun kv' =>
            match lookupBag (kv2 :: new') kv'.1 with
            | some v => (kv'.1, v)
            | none => kv') = old'.map fun kv' =>
            match lookupBag new' kv'.1 with
            | some v => (kv'.1, v)
            | none => kv' := by
          apply List.map_congr_left
          intro kv' hmem
          have hne : kv2.1 ≠ kv'.1 := by
            intro hc
            exact hnotin (h2 ▸ hc ▸ List.mem_map.mpr ⟨kv', hmem, rfl⟩)
          have hl : lookupBag (kv2 :: new') kv'.1 = lookupBag new' kv'.1 := by
            show (if kv2.1 = kv'.1 then some kv2.2 else lookupBag new' kv'.1) = _
            rw [if_neg hne]
          rw [hl]
        rw [hcong]
        exact ih new' h2 hn'

theorem bagUpdate_eq_of_keys_eq (old new : Bag)
    (hk : old.map Prod.fst = new.map Prod.fst)
    (hn : (new.map Prod.fst).Nodup) : bagUpdate old new = new := by
  unfold bagUpdate
  rw [bagUpdate_map_eq old new hk hn,
    bagUpdate_filter_nil old new (fun k hkm => hk ▸ hkm), List.append_nil]

/-- A concrete activity record labelled `Lunch` carrying an extra `note`
attribute. -/
def lunchWithNote : Bag :=
  [("activity", Val.str "Lunch"), ("note", Val.str "with tea")]

/-- A second activity record with the same `Lunch` label but no `note`
attribute. -/
def lunchPlain : Bag :=
  [("activity", Val.str "Lunch")]

/-- C10 counterexample: with two same-label activities whose key sets differ,
the single `activity_Lunch` node's attribute bag is *not* the bag of the last
such activity — the earlier activity's `note` attribute survives the networkx
attribute update, so the bag is the update of the first bag with the second,
not the second bag itself. -/
theorem C10_counterexample :
    nodeBag (construct_memory_network [lunchWithNote, lunchPlain] []) "activity_Lunch" =
      some (("type", Val.str "activity") :: lunchWithNote) ∧
    nodeBag (construct_memory_network [lunchWithNote, lunchPlain] []) "activity_Lunch" ≠
      some (("type", Val.str "activity") :: lunchPlain) := by
  have hbag : nodeBag (construct_memory_network [lunchWithNote, lunchPlain] [])
      "activity_Lunch" = some (("type", Val.str "activity") :: lunchWithNote) := rfl
  refine ⟨hbag, fun h => ?_⟩
  rw [hbag] at h
  have h2 := congrArg (fun o => (Option.getD o []).length) h
  simp [lunchWithNote, lunchPlain] at h2

/-- C10 (amended): in any routine record in which exactly two activities —
`a1` before `a2`, with arbitrary other activities around them and arbitrary
memories in the story data — carry the same activity label, the built graph
contains a single Activity node with identifier `activity_<label>` (node
identifiers are unique), and that node's attribute bag is the earlier
activity's bag updated key-by-key with the later one's (dict-update
semantics); when the two activities carry the same keys in the same order
this equals the last activity's bag, the earlier values being silently
overwritten. -/
theorem C10_same_label_overwrite (pre mid post memories : List Bag) (a1 a2 : Bag)
    (hlabel : actLabel a2 = actLabel a1)
    (hothers : ∀ a ∈ pre ++ mid ++ post, actLabel a ≠ actLabel a1) :
    nodeCount (construct_memory_network (pre ++ a1 :: (mid ++ a2 :: post)) memories)
      ("activity_" ++ actLabel a1) = 1 ∧
    nodeBag (construct_memory_network (pre ++ a1 :: (mid ++ a2 :: post)) memories)
      ("activity_" ++ actLabel a1) =
      some (bagUpdate (("type", Val.str "activity") :: a1)
        (("type", Val.str "activity") :: a2)) ∧
    (∀ old new : Bag, old.map Prod.fst = new.map Prod.fst →
      (new.map Prod.fst).Nodup → bagUpdate old new = new) := by
  have hq : ∀ y, ("activity_" ++ actLabel a1) ≠ "person_" ++ y :=
    fun y => activityId_ne_personId _ y
  have hmemne : ∀ x, ("activity_" ++ actLabel a1) ≠ "memory_" ++ x :=
    fun x => activityId_ne_memoryId _ x
  have hactne : ∀ a : Bag, actLabel a ≠ actLabel a1 →
      "activity_" ++ actLabel a ≠ "activity_" ++ actLabel a1 :=
    fun a ha hc => ha (string_append_right_inj _ hc)
  have hopre : ∀ a ∈ pre, "activity_" ++ actLabel a ≠ "activity_" ++ actLabel a1 :=
    fun a ha => hactne a (hothers a
      (List.mem_append.mpr (Or.inl (List.mem_append.mpr (Or.inl ha)))))
  have homid : ∀ a ∈ mid, "activity_" ++ actLabel a ≠ "activity_" ++ actLabel a1 :=
    fun a ha => hactne a (hothers a
      (List.mem_append.mpr (Or.inl (List.mem_append.mpr (Or.inr ha)))))
  have hopost : ∀ a ∈ post, "activity_" ++ actLabel a ≠ "activity_" ++ actLabel a1 :=
    fun a ha => hactne a (hothers a (List.mem_append.mpr (Or.inr ha)))
  have hfold : (pre ++ a1 :: (mid ++ a2 :: post)).foldl addActivity Graph.empty =
      post.foldl addActivity (addActivity (mid.foldl addActivity
        (addActivity (pre.foldl addActivity Graph.empty) a1)) a2) := by
    rw [List.foldl_append, List.foldl_cons, List.foldl_append, List.foldl_cons]
  have hA : nodeBag (pre.foldl addActivity Graph.empty)
      ("activity_" ++ actLabel a1) = none := by
    rw [nodeBag_actFold_other hq pre Graph.empty hopre]
    rfl
  have hAhas : hasNode (pre.foldl addActivity Graph.empty)
      ("activity_" ++ actLabel a1) = false := by
    cases hh : hasNode (pre.foldl addActivity Graph.empty)
        ("activity_" ++ actLabel a1) with
    | false => rfl
    | true =>
      have hs := nodeBag_isSome_iff.mpr hh
      rw [hA] at hs
      cases hs
  have hB : nodeBag (addActivity (pre.foldl addActivity Graph.empty) a1)
      ("activity_" ++ actLabel a1) = some (("type", Val.str "activity") :: a1) :=
    nodeBag_addActivity_self a1 hAhas
  have hC : nodeBag (mid.foldl addActivity
      (addActivity (pre.foldl addActivity Graph.empty) a1))
      ("activity_" ++ actLabel a1) = some (("type", Val.str "activity") :: a1) := by
    rw [nodeBag_actFold_other hq mid _ homid, hB]
  have hD : nodeBag (addActivity (mid.foldl addActivity
      (addActivity (pre.foldl addActivity Graph.empty) a1)) a2)
      ("activity_" ++ actLabel a1) =
      some (bagUpdate (("type", Val.str "activity") :: a1)
        (("type", Val.str "activity") :: a2)) :=
    nodeBag_addActivity_upd a2 hlabel hC
  have hE : nodeBag ((pre ++ a1 :: (mid ++ a2 :: post)).foldl addActivity Graph.empty)
      ("activity_" ++ actLabel a1) =
      some (bagUpdate (("type", Val.str "activity") :: a1)
        (("type", Val.str "activity") :: a2)) := by
    rw [hfold, nodeBag_actFold_other hq post _ hopost, hD]
  have hF : nodeBag (construct_memory_network (pre ++ a1 :: (mid ++ a2 :: post)) memories)
      ("activity_" ++ actLabel a1) =
      some (bagUpdate (("type", Val.str "activity") :: a1)
        (("type", Val.str "activity") :: a2)) := by
    unfold construct_memory_network
    rw [nodeBag_memFold_other hq hmemne memories _, hE]
  refine ⟨?_, hF, bagUpdate_eq_of_keys_eq⟩
  apply nodeCount_of_nodup _ _ (nodup_keys_construct _ _)
  apply nodeBag_isSome_iff.mp
  rw [hF]
  rfl

/-- A concrete memory record unrelated to the lunches, used to witness that
the story data does not disturb the merged activity node. -/
def tomMemory : Bag :=
  [("id", Val.num 1), ("description", Val.str "Walking with Tom"),
   ("people", Val.list [Val.str "Tom"])]

/-- Witness for C10 (amended) at a concrete routine: an unrelated breakfast
activity, then the two same-label lunches, built together with an unrelated
memory. -/
theorem C10_same_label_overwrite_witness :
    nodeCount (construct_memory_network
        ([breakfastActivity] ++ lunchWithNote :: ([] ++ lunchPlain :: []))
        [tomMemory])
      ("activity_" ++ actLabel lunchWithNote) = 1 ∧
    nodeBag (construct_memory_network
        ([breakfastActivity] ++ lunchWithNote :: ([] ++ lunchPlain :: []))
        [tomMemory])
      ("activity_" ++ actLabel lunchWithNote) =
      some (bagUpdate (("type", Val.str "activity") :: lunchWithNote)
        (("type", Val.str "activity") :: lunchPlain)) ∧
    (∀ old new : Bag, old.map Prod.fst = new.map Prod.fst →
      (new.map Prod.fst).Nodup → bagUpdate old new = new) :=
  C10_same_label_overwrite [breakfastActivity] [] [] [tomMemory]
    lunchWithNote lunchPlain rfl (by decide)

/-- The Python exception kinds the agent's uncaught paths can raise:
`json.JSONDecodeError` from parsing collaborator output, any API/transport
exception from the collaborator call itself, and `AttributeError` from
`getattr` on an unknown keyword category. -/
inductive PyFailure where
  | jsonDecodeError
  | apiError
  | attributeError
deriving Repr, DecidableEq

/-- Embeds the `SearchPriorities` dataclass: fixed per-category weights. -/
structure SearchPriorities where
  people : ℚ := 2/5
  events : ℚ := 3/10
  time : ℚ := 1/5
  location : ℚ := 1/10
deriving Repr, DecidableEq

/-- Embeds the `RelevanceThresholds` dataclass. -/
structure RelevanceThresholds where
  min_score : ℚ := 1/2
  strong_match : ℚ := 7/10
  keyword_overlap : ℚ := 3/10
deriving Repr, DecidableEq

/-- `getattr(self.priorities, category)`: the category's weight when the
category is one of the four dataclass fields, `none` (an `AttributeError` in
Python) otherwise. -/
def getPriority (p : SearchPriorities) (category : String) : Option ℚ :=
  if category = "people" then some p.people
  else if category = "events" then some p.events
  else if category = "time" then some p.time
  else if category = "location" then some p.location
  else none

/-- Whether a category name is a field of `SearchPriorities`. -/
def isPriorityCategory (category : String) : Bool :=
  category == "people" || category == "events" ||
  category == "time" || category == "location"

/-- A keyword term as delivered by upstream expansion: a plain string, an
object (dict) with arbitrary JSON-valued fields (possibly carrying
`term`/`name`), or any other JSON shape (number, array, null, ...). -/
inductive Term where
  | str (s : String)
  | obj (fields : Bag)
  | other

/-- A categorized keyword map, in insertion order. -/
abbrev Keywords := List (String × List Term)

/-- Python truthiness of a JSON value: `""`, `0`, `[]` and `\x7b\x7d` are
falsy, everything else truthy. -/
def pyTruthy : Val → Bool
  | Val.str s => !(s == "")
  | Val.num n => !(n == 0)
  | Val.list l => !l.isEmpty
  | Val.dict d => !d.isEmpty

/-- Python `a or b` where `a` is an optional JSON value: an absent key
(`None`) or a falsy value falls through to `b`. -/
def pyOrV (a : Option Val) (b : Val) : Val :=
  match a with
  | some v => if pyTruthy v then v else b
  | none => b

/-- The value `term_str` computed by `_calculate_relevance`'s normalization:
`term.get('term') or term.get('name') or ''` for a dict term — which can be
any JSON value, not only a string — the term itself for a string, `''` for
any other shape. -/
def normTermVal : Term → Val
  | Term.str s => Val.str s
  | Term.obj fields =>
    pyOrV (lookupBag fields "term") (pyOrV (lookupBag fields "name") (Val.str ""))
  | Term.other => Val.str ""

/-- Whether `term_str.lower()` succeeds on the term, i.e. the normalized
value is a string. -/
def termOk (t : Term) : Bool :=
  match normTermVal t with
  | Val.str _ => true
  | _ => false

/-- The normalized string of a term whose normalized value is a string. -/
def normStr (t : Term) : String :=
  match normTermVal t with
  | Val.str s => s
  | _ => ""

/-- Python `str.lower()` as a structural map over the code points (ASCII
case folding, matching `Char.toLower`). -/
def pyLower (s : String) : String := String.mk (s.data.map Char.toLower)

/-- Whether `sub` matches at the head of `l`. -/
def leadMatch : List Char → List Char → Bool
  | [], _ => true
  | _ :: _, [] => false
  | a :: as, b :: bs => a == b && leadMatch as bs

/-- Whether `sub` occurs contiguously anywhere in `l`. -/
def hasSub (sub : List Char) : List Char → Bool
  | [] => leadMatch sub []
  | b :: bs => leadMatch sub (b :: bs) || hasSub sub bs

/-- Python `sub in text` on strings (substring containment; the empty string
is contained in everything). -/
def pyIn (sub text : String) : Bool := hasSub sub.data text.data

theorem hasSub_nil : ∀ l : List Char, hasSub [] l = true := by
  intro l
  cases l <;> rfl

/-- The `for term in terms` loop of `_calculate_relevance`: normalize each
term and call `term_str.lower()` — which raises `AttributeError` when the
normalized value is not a string (e.g. a dict term whose `term`/`name` value
is a truthy number or list) — then count the substring matches. -/
def countMatches (text : String) : List Term → Nat → Except PyFailure Nat
  | [], cnt => Except.ok cnt
  | term :: rest, cnt =>
    match normTermVal term with
    | Val.str s =>
      countMatches text rest (if pyIn (pyLower s) text then cnt + 1 else cnt)
    | _ => Except.error PyFailure.attributeError

/-- The `for category, terms in keywords.items()` loop of
`_calculate_relevance`, with the running score as accumulator; an unknown
category raises `AttributeError` (from `getattr`) out of the loop, and a
non-string normalized term raises `AttributeError` from the inner loop. -/
def calcRelLoop (p : SearchPriorities) (text : String) :
    Keywords → ℚ → Except PyFailure ℚ
  | [], score => Except.ok score
  | ct :: rest, score =>
    match getPriority p ct.1 with
    | none => Except.error PyFailure.attributeError
    | some weight =>
      match countMatches text ct.2 0 with
      | Except.error e => Except.error e
      | Except.ok cnt => calcRelLoop p text rest (score + cnt * weight)

/-- Embeds `ReflectiveMemoryAgent._calculate_relevance`: serialize the node
content with `json.dumps` and lower-case it, then accumulate
`matches * weight` per category. -/
def calculate_relevance (p : SearchPriorities) (content : Val)
    (keywords : Keywords) : Except PyFailure ℚ :=
  calcRelLoop p (pyLower (jsonDump content)) keywords 0

/-- The value `_calculate_relevance` computes on well-shaped keyword maps, as
a total function. -/
def relevanceScore (p : SearchPriorities) (content : Val) (keywords : Keywords) : ℚ :=
  keywords.foldl (fun score ct =>
    score + (ct.2.countP fun term =>
      pyIn (pyLower (normStr term)) (pyLower (jsonDump content))) *
      ((getPriority p ct.1).getD 0)) 0

/-- A keyword map the scorer processes without raising: every category is a
`SearchPriorities` field and every term normalizes to a string. -/
def wfKeywords (keywords : Keywords) : Prop :=
  ∀ ct ∈ keywords, isPriorityCategory ct.1 = true ∧ ∀ t ∈ ct.2, termOk t = true

theorem getPriority_isSome {cat : String} (h : isPriorityCategory cat = true)
    (p : SearchPriorities) : (getPriority p cat).isSome = true := by
  unfold isPriorityCategory at h
  rcases (by simpa using h : ((cat = "people" ∨ cat = "events") ∨ cat = "time") ∨
    cat = "location") with ((rfl | rfl) | rfl) | rfl <;> rfl

theorem getPriority_none {cat : String} (h : isPriorityCategory cat = false)
    (p : SearchPriorities) : getPriority p cat = none := by
  unfold isPriorityCategory at h
  simp only [Bool.or_eq_false_iff, beq_eq_false_iff_ne] at h
  obtain ⟨⟨⟨h1, h2⟩, h3⟩, h4⟩ := h
  unfold getPriority
  rw [if_neg h1, if_neg h2, if_neg h3, if_neg h4]

theorem getPriority_getD_nonneg (p : SearchPriorities) (hp1 : 0 ≤ p.people)
    (hp2 : 0 ≤ p.events) (hp3 : 0 ≤ p.time) (hp4 : 0 ≤ p.location) (c : String) :
    0 ≤ (getPriority p c).getD 0 := by
  unfold getPriority
  split
  · exact hp1
  · split
    · exact hp2
    · split
      · exact hp3
      · split
        · exact hp4
        · exact le_refl 0

theorem countMatches_cons (text : String) (term : Term) (rest : List Term)
    (cnt : Nat) :
    countMatches text (term :: rest) cnt =
      match normTermVal term with
      | Val.str s =>
        countMatches text rest (if pyIn (pyLower s) text then cnt + 1 else cnt)
      | _ => Except.error PyFailure.attributeError := rfl

theorem countMatches_ok (text : String) :
    ∀ (terms : List Term), (∀ t ∈ terms, termOk t = true) →
    ∀ m : Nat, countMatches text terms m =
      Except.ok (m + terms.countP fun t => pyIn (pyLower (normStr t)) text) := by
  intro terms
  induction terms with
  | nil => intro _ m; simp [countMatches]
  | cons t rest ih =>
    intro h m
    have ht := h t (List.mem_cons_self t rest)
    cases hv : normTermVal t with
    | str s =>
      have hstep : countMatches text (t :: rest) m =
          countMatches text rest (if pyIn (pyLower s) text then m + 1 else m) := by
        rw [countMatches_cons, hv]
      have hns : normStr t = s := by
        unfold normStr
        rw [hv]
      rw [hstep, ih (fun x hx => h x (List.mem_cons_of_mem _ hx)),
        List.countP_cons, hns]
      congr 1
      by_cases hin : pyIn (pyLower s) text = true
      · rw [if_pos hin, if_pos hin]
        omega
      · rw [if_neg hin, if_neg hin]
        omega
    | num n => simp [termOk, hv] at ht
    | list l => simp [termOk, hv] at ht
    | dict d => simp [termOk, hv] at ht

theorem calcRelLoop_ok (p : SearchPriorities) (text : String) :
    ∀ (kw : Keywords) (q : ℚ), wfKeywords kw →
    calcRelLoop p text kw q = Except.ok (kw.foldl (fun score ct =>
      score + (ct.2.countP fun term => pyIn (pyLower (normStr term)) text) *
        ((getPriority p ct.1).getD 0)) q) := by
  intro kw
  induction kw with
  | nil => intro q _; rfl
  | cons ct rest ih =>
    intro q hwf
    obtain ⟨hcat, hterms⟩ := hwf ct (List.mem_cons_self ct rest)
    obtain ⟨w, hw⟩ := Option.isSome_iff_exists.mp (getPriority_isSome hcat p)
    unfold calcRelLoop
    rw [hw, countMatches_ok text ct.2 hterms 0, List.foldl_cons, hw, Nat.zero_add]
    exact ih _ fun c hc => hwf c (List.mem_cons_of_mem _ hc)

theorem foldl_score_nonneg (p : SearchPriorities) (text : String)
    (hp1 : 0 ≤ p.people) (hp2 : 0 ≤ p.events) (hp3 : 0 ≤ p.time)
    (hp4 : 0 ≤ p.location) :
    ∀ (kw : Keywords) (q : ℚ), 0 ≤ q →
    0 ≤ kw.foldl (fun score ct =>
      score + (ct.2.countP fun term => pyIn (pyLower (normStr term)) text) *
        ((getPriority p ct.1).getD 0)) q := by
  intro kw
  induction kw with
  | nil => intro q hq; exact hq
  | cons ct rest ih =>
    intro q hq
    rw [List.foldl_cons]
    refine ih _ (add_nonneg hq (mul_nonneg (Nat.cast_nonneg _) ?_))
    exact getPriority_getD_nonneg p hp1 hp2 hp3 hp4 ct.1

theorem calc_single_other {p : SearchPriorities} {cat : String} {w : ℚ}
    (h : getPriority p cat = some w) (content : Val) :
    calculate_relevance p content [(cat, [Term.other])] = Except.ok (0 + 1 * w) := by
  show calcRelLoop p (pyLower (jsonDump content)) [(cat, [Term.other])] 0 = _
  unfold calcRelLoop
  rw [h]
  have hin : pyIn (pyLower "") (pyLower (jsonDump content)) = true := hasSub_nil _
  have hcm : countMatches (pyLower (jsonDump content)) [Term.other] 0 = Except.ok 1 := by
    show countMatches (pyLower (jsonDump content)) []
      (if pyIn (pyLower "") (pyLower (jsonDump content)) then 0 + 1 else 0) = Except.ok 1
    rw [hin]
    rfl
  rw [hcm]
  show Except.ok (0 + ((1 : ℕ) : ℚ) * w) = Except.ok (0 + 1 * w)
  norm_num

theorem calc_single_bad_term {p : SearchPriorities} {cat : String} {w : ℚ}
    (h : getPriority p cat = some w) (content : Val) {t : Term}
    (ht : termOk t = false) :
    calculate_relevance p content [(cat, [t])] =
      Except.error PyFailure.attributeError := by
  show calcRelLoop p (pyLower (jsonDump content)) [(cat, [t])] 0 = _
  unfold calcRelLoop
  rw [h]
  have hcm : countMatches (pyLower (jsonDump content)) [t] 0 =
      Except.error PyFailure.attributeError := by
    rw [countMatches_cons]
    cases hv : normTermVal t with
    | str s => simp [termOk, hv] at ht
    | num n => rfl
    | list l => rfl
    | dict d => rfl
  rw [hcm]

/-- C3 counterexample: the scorer raises (`AttributeError`) on a keyword map
with a category outside `SearchPriorities` instead of skipping it, and a term
of unrecognized shape contributes the full category weight (2/5 here), not
zero, because it is normalized to `""` and `"" in text` is true in Python. -/
theorem C3_counterexample :
    calculate_relevance {} (Val.dict []) [("weather", [Term.str "rain"])] =
      Except.error PyFailure.attributeError ∧
    calculate_relevance {} (Val.dict []) [("people", [Term.other])] =
      Except.ok (2/5) := by
  constructor
  · rfl
  · rw [calc_single_other (show getPriority {} "people" = some (2/5) from rfl) (Val.dict [])]
    norm_num

/-- C3 (amended): for every node content and every keyword map whose
categories are all `SearchPriorities` fields (people, events, time, location)
and whose terms all normalize to strings, the scorer never raises and returns
the finite score `relevanceScore`, which is nonnegative whenever the priority
weights are; a plain-string term is matched as-is; a term of unrecognized
shape is normalized to the empty string, which occurs in every serialized
content and therefore contributes one match — the category's full weight, not
zero. The scorer does raise `AttributeError` in two cases: on a keyword map
containing a category outside `SearchPriorities` (rather than skipping the
category), and on a dict term whose `term`/`name` chain yields a truthy
non-string value (`term_str.lower()` on a non-string). -/
theorem C3_scorer_never_raises :
    (∀ (p : SearchPriorities) (content : Val) (keywords : Keywords),
      0 ≤ p.people → 0 ≤ p.events → 0 ≤ p.time → 0 ≤ p.location →
      wfKeywords keywords →
      calculate_relevance p content keywords =
        Except.ok (relevanceScore p content keywords) ∧
      0 ≤ relevanceScore p content keywords) ∧
    (∀ s, normStr (Term.str s) = s) ∧
    (∀ (p : SearchPriorities) (content : Val) (cat : String),
      isPriorityCategory cat = true →
      calculate_relevance p content [(cat, [Term.other])] =
        Except.ok ((getPriority p cat).getD 0)) ∧
    (∀ (p : SearchPriorities) (content : Val) (cat : String) (ts : List Term),
      isPriorityCategory cat = false →
      calculate_relevance p content [(cat, ts)] =
        Except.error PyFailure.attributeError) ∧
    (∀ (p : SearchPriorities) (content : Val) (cat : String) (t : Term),
      isPriorityCategory cat = true → termOk t = false →
      calculate_relevance p content [(cat, [t])] =
        Except.error PyFailure.attributeError) := by
  refine ⟨?_, fun s => rfl, ?_, ?_, ?_⟩
  · intro p content keywords hp1 hp2 hp3 hp4 hwf
    refine ⟨calcRelLoop_ok p _ keywords 0 hwf, ?_⟩
    exact foldl_score_nonneg p _ hp1 hp2 hp3 hp4 keywords 0 (le_refl 0)
  · intro p content cat hcat
    obtain ⟨w, hw⟩ := Option.isSome_iff_exists.mp (getPriority_isSome hcat p)
    rw [calc_single_other hw content, hw]
    show Except.ok (0 + 1 * w) = Except.ok w
    norm_num
  · intro p content cat ts hcat
    show calcRelLoop p _ [(cat, ts)] 0 = _
    unfold calcRelLoop
    rw [getPriority_none hcat p]
  · intro p content cat t hcat ht
    obtain ⟨w, hw⟩ := Option.isSome_iff_exists.mp (getPriority_isSome hcat p)
    exact calc_single_bad_term hw content ht

/-- Witness for C3 (amended) on concrete inputs: a well-shaped map with a
plain-string term, the unrecognized-shape contribution for `people`, the
raising behaviour of an unknown `weather` category, and the raising behaviour
of a dict term whose `term` field is the number 5. -/
theorem C3_scorer_never_raises_witness :
    (calculate_relevance {} (Val.dict [("name", Val.str "Tom")])
        [("people", [Term.str "Tom"])] =
      Except.ok (relevanceScore {} (Val.dict [("name", Val.str "Tom")])
        [("people", [Term.str "Tom"])]) ∧
      0 ≤ relevanceScore {} (Val.dict [("name", Val.str "Tom")])
        [("people", [Term.str "Tom"])]) ∧
    calculate_relevance {} (Val.dict []) [("people", [Term.other])] =
      Except.ok ((getPriority {} "people").getD 0) ∧
    calculate_relevance {} (Val.dict []) [("weather", [Term.str "rain"])] =
      Except.error PyFailure.attributeError ∧
    calculate_relevance {} (Val.dict [])
        [("people", [Term.obj [("term", Val.num 5)]])] =
      Except.error PyFailure.attributeError :=
  ⟨C3_scorer_never_raises.1 {} (Val.dict [("name", Val.str "Tom")])
      [("people", [Term.str "Tom"])] (by norm_num) (by norm_num) (by norm_num)
      (by norm_num)
      (by
        intro ct hct
        rcases List.mem_singleton.mp hct with rfl
        exact ⟨rfl, by
          intro t htm
          rcases List.mem_singleton.mp htm with rfl
          rfl⟩),
    C3_scorer_never_raises.2.2.1 {} (Val.dict []) "people" rfl,
    C3_scorer_never_raises.2.2.2.1 {} (Val.dict []) "weather" [Term.str "rain"] rfl,
    C3_scorer_never_raises.2.2.2.2 {} (Val.dict []) "people"
      (Term.obj [("term", Val.num 5)]) rfl rfl⟩

/-- The outcome of one external collaborator call, before the agent touches
it: the call succeeded and its output parsed (`ok`), the call succeeded but
`json.loads` raised (`parseError`, a `JSONDecodeError`), or the call itself
raised (`callFailure`, any other exception). -/
inductive CollabResult (α : Type) where
  | ok (v : α)
  | parseError
  | callFailure

/-- The parsed NLU analysis consumed by the orchestrator
(`keywords`, `focus`, `temporal_context`). -/
structure Strategy where
  keywords : Keywords
  focus : String
  temporal_context : String

/-- The neutral default keyword map of `_analyze_dialogue`'s
`except json.JSONDecodeError` handler: the four categories, all empty. -/
def defaultKeywords : Keywords :=
  [("people", []), ("events", []), ("time", []), ("location", [])]

/-- Embeds `_expand_keywords`: the parsed expansion on success, the original
keywords when the expansion output fails to parse (caught `JSONDecodeError`),
and a propagated exception when the call itself fails. -/
def expand_keywords (keywords : Keywords) (resp : CollabResult Keywords) :
    Except PyFailure Keywords :=
  match resp with
  | CollabResult.ok expanded => Except.ok expanded
  | CollabResult.parseError => Except.ok keywords
  | CollabResult.callFailure => Except.error PyFailure.apiError

/-- Embeds `_analyze_dialogue`: on parsed NLU output the keywords are
expanded and the strategy returned; on unparseable NLU output the local
handler substitutes empty keyword categories with focus `both`; a failed call
(any non-`JSONDecodeError` exception) propagates, as does a failure inside
the expansion call. -/
def analyze_dialogue (nluResp : CollabResult Strategy)
    (expandResp : CollabResult Keywords) : Except PyFailure Strategy :=
  match nluResp with
  | CollabResult.ok analysis =>
    match expand_keywords analysis.keywords expandResp with
    | Except.ok expanded =>
      Except.ok { keywords := expanded, focus := analysis.focus,
                  temporal_context := analysis.temporal_context }
    | Except.error e => Except.error e
  | CollabResult.parseError =>
    Except.ok { keywords := defaultKeywords, focus := "both",
                temporal_context := "both" }
  | CollabResult.callFailure => Except.error PyFailure.apiError

/-- Embeds `_evaluate_effectiveness`: there is no local handler — unparseable
output or a failed call propagates to the caller. -/
def evaluate_effectiveness (resp : CollabResult Effectiveness) :
    Except PyFailure Effectiveness :=
  match resp with
  | CollabResult.ok eff => Except.ok eff
  | CollabResult.parseError => Except.error PyFailure.jsonDecodeError
  | CollabResult.callFailure => Except.error PyFailure.apiError

/-- The behaviour of the external collaborators during one `process_query`
run: the NLU analysis call, the keyword-expansion call, and the (at most two)
sufficiency evaluations in call order. -/
structure Oracle where
  nlu : CollabResult Strategy
  expand : CollabResult Keywords
  eval1 : CollabResult Effectiveness
  eval2 : CollabResult Effectiveness

/-- One entry of the candidate list (`type`, `content`, `relevance`,
`source`). -/
structure SearchEntry where
  type : String
  content : Bag
  relevance : ℚ
  source : String

/-- `node[1]['type']` of a graph node's attribute bag. -/
def nodeType (b : Bag) : String := strField b "type"

/-- One iteration of the node loop of `_search_knowledge_graphs`: score the
node, weight by the source's adaptive weight (`routine_weight` for activity
nodes, `story_weight` for the rest), and append the entry when the weighted
relevance reaches `min_score`; an exception aborts the loop. -/
def searchStep (w : SearchWeights) (p : SearchPriorities) (th : RelevanceThresholds)
    (keywords : Keywords) (acc : Except PyFailure (List SearchEntry))
    (node : String × Bag) : Except PyFailure (List SearchEntry) :=
  match acc with
  | Except.error e => Except.error e
  | Except.ok results =>
    (calculate_relevance p (Val.dict node.2) keywords).map fun relevance =>
      let source_type := if nodeType node.2 = "activity" then "routine" else "story"
      let weight := if source_type = "routine" then w.routine_weight else w.story_weight
      let weighted_relevance := relevance * weight
      if th.min_score ≤ weighted_relevance then
        results ++ [⟨nodeType node.2, node.2, weighted_relevance, source_type⟩]
      else results

/-- The comparator of `sorted(results, key=lambda x: x['relevance'],
reverse=True)`: stable descending order by relevance. -/
def byRelevanceDesc (a b : SearchEntry) : Bool := decide (b.relevance ≤ a.relevance)

/-- Embeds `_search_knowledge_graphs`: score every node of the memory graph,
keep the entries whose weighted relevance reaches `min_score`, sort descending
by weighted relevance (stably) and return the top 4. -/
def search_knowledge_graphs (G : Graph) (w : SearchWeights) (p : SearchPriorities)
    (th : RelevanceThresholds) (keywords : Keywords) :
    Except PyFailure (List SearchEntry) :=
  (G.nodes.foldl (searchStep w p th keywords) (Except.ok [])).map fun results =>
    (results.mergeSort byRelevanceDesc).take 4

/-- The dictionary `process_query` returns (the fields the spec's claims
mention; `keyword_analysis` carries the same, post-expansion, map twice in
the source). -/
structure QueryOutcome where
  query_time : String
  current_activity : Option Bag
  keyword_original : Keywords
  keyword_expanded : Keywords
  results : List SearchEntry
  effectiveness : Effectiveness
  routine_weight : ℚ
  story_weight : ℚ

/-- The current-activity scoring step of `process_query`: the activity is kept
as the initial candidate when its unweighted relevance reaches `min_score`. -/
def initial_candidates (p : SearchPriorities) (th : RelevanceThresholds)
    (current_activity : Option Bag) (keywords : Keywords) :
    Except PyFailure (List SearchEntry) :=
  match current_activity with
  | none => Except.ok []
  | some act =>
    (calculate_relevance p (Val.dict act) keywords).map fun relevance =>
      if th.min_score ≤ relevance then
        [⟨"activity", act, relevance, "routine"⟩]
      else []

/-- Embeds `ReflectiveMemoryAgent.process_query`: locate the current activity,
build the keyword strategy (NLU + expansion), score the current activity,
evaluate sufficiency, broaden through the full graph and re-evaluate once if
insufficient, adjust the weights with the final judgment, and return the top
8 candidates with the telemetry. Any uncaught collaborator failure
propagates. -/
def process_query (activities : List Bag) (G : Graph) (w : SearchWeights)
    (p : SearchPriorities) (th : RelevanceThresholds) (o : Oracle)
    (text current_time : String) : Except PyFailure QueryOutcome := do
  let current_activity := get_activity_at_time activities current_time
  let strategy ← analyze_dialogue o.nlu o.expand
  let results ← initial_candidates p th current_activity strategy.keywords
  let eff1 ← evaluate_effectiveness o.eval1
  if eff1.sufficient then
    pure
      { query_time := current_time, current_activity := current_activity,
        keyword_original := strategy.keywords,
        keyword_expanded := strategy.keywords,
        results := results.take 8, effectiveness := eff1,
        routine_weight := (w.adjust eff1).routine_weight,
        story_weight := (w.adjust eff1).story_weight }
  else
    let graph_results ← search_knowledge_graphs G w p th strategy.keywords
    let eff2 ← evaluate_effectiveness o.eval2
    pure
      { query_time := current_time,
        current_activity := current_activity,
        keyword_original := strategy.keywords,
        keyword_expanded := strategy.keywords,
        results := (results ++ graph_results).take 8,
        effectiveness := eff2,
        routine_weight := (w.adjust eff2).routine_weight,
        story_weight := (w.adjust eff2).story_weight }

theorem defaultKeywords_wf : wfKeywords defaultKeywords := by
  unfold wfKeywords
  decide

theorem ok_bind {α β : Type} (a : α) (f : α → Except PyFailure β) :
    ((Except.ok a : Except PyFailure α) >>= f) = f a := rfl

theorem error_bind {α β : Type} (e : PyFailure) (f : α → Except PyFailure β) :
    ((Except.error e : Except PyFailure α) >>= f) = Except.error e := rfl

theorem ok_map {α β : Type} (a : α) (f : α → β) :
    (Except.ok a : Except PyFailure α).map f = Except.ok (f a) := rfl

theorem initial_candidates_some (p : SearchPriorities) (th : RelevanceThresholds)
    (act : Bag) (kw : Keywords) :
    initial_candidates p th (some act) kw =
      (calculate_relevance p (Val.dict act) kw).map fun relevance =>
        if th.min_score ≤ relevance then
          [⟨"activity", act, relevance, "routine"⟩]
        else [] := rfl

theorem initial_candidates_ok (p : SearchPriorities) (th : RelevanceThresholds)
    (ca : Option Bag) (kw : Keywords) (h : wfKeywords kw) :
    ∃ r, initial_candidates p th ca kw = Except.ok r := by
  cases ca with
  | none => exact ⟨[], rfl⟩
  | some act =>
    have hcalc : calculate_relevance p (Val.dict act) kw =
        Except.ok (relevanceScore p (Val.dict act) kw) := calcRelLoop_ok p _ kw 0 h
    rw [initial_candidates_some, hcalc, ok_map]
    exact ⟨_, rfl⟩

theorem analyze_parseError (expandR : CollabResult Keywords) :
    analyze_dialogue CollabResult.parseError expandR =
      Except.ok ⟨defaultKeywords, "both", "both"⟩ := rfl

theorem analyze_ok_parseError (st : Strategy) :
    analyze_dialogue (CollabResult.ok st) CollabResult.parseError =
      Except.ok ⟨st.keywords, st.focus, st.temporal_context⟩ := rfl

theorem analyze_ok_ok (st : Strategy) (kw2 : Keywords) :
    analyze_dialogue (CollabResult.ok st) (CollabResult.ok kw2) =
      Except.ok ⟨kw2, st.focus, st.temporal_context⟩ := rfl

/-- C1 counterexample: with both NLU calls succeeding but the sufficiency
evaluation returning unparseable output, `process_query` propagates the
`JSONDecodeError` to its caller — it does not substitute a mid-range default
effectiveness. -/
theorem C1_counterexample :
    process_query [] Graph.empty SearchWeights.init {} {}
      ⟨CollabResult.ok ⟨defaultKeywords, "routine", "current"⟩,
       CollabResult.ok defaultKeywords,
       CollabResult.parseError, CollabResult.parseError⟩
      "Will Emily come today?" "14:30" =
    Except.error PyFailure.jsonDecodeError := rfl

/-- C1 (amended): the NLU-analysis and keyword-expansion calls catch
unparseable output locally — substituting the empty keyword categories with
focus `both`, respectively the unexpanded keywords — and `process_query`
still returns a result; but a failure of the NLU call itself propagates
(`apiError`), and the sufficiency evaluation has no local handler at all, so
its unparseable output propagates a `JSONDecodeError` to `process_query`'s
caller. -/
theorem C1_failure_semantics :
    (∀ (activities : List Bag) (G : Graph) (w : SearchWeights)
      (p : SearchPriorities) (th : RelevanceThresholds)
      (expandR : CollabResult Keywords) (e1 : Effectiveness)
      (ev2 : CollabResult Effectiveness) (text time : String),
      e1.sufficient = true →
      ∃ out : QueryOutcome,
        process_query activities G w p th
          ⟨CollabResult.parseError, expandR, CollabResult.ok e1, ev2⟩ text time =
          Except.ok out ∧
        out.keyword_expanded = defaultKeywords ∧ out.effectiveness = e1) ∧
    (∀ (activities : List Bag) (G : Graph) (w : SearchWeights)
      (p : SearchPriorities) (th : RelevanceThresholds) (st : Strategy)
      (e1 : Effectiveness) (ev2 : CollabResult Effectiveness) (text time : String),
      wfKeywords st.keywords →
      e1.sufficient = true →
      ∃ out : QueryOutcome,
        process_query activities G w p th
          ⟨CollabResult.ok st, CollabResult.parseError, CollabResult.ok e1, ev2⟩
          text time = Except.ok out ∧
        out.keyword_expanded = st.keywords ∧ out.effectiveness = e1) ∧
    (∀ (activities : List Bag) (G : Graph) (w : SearchWeights)
      (p : SearchPriorities) (th : RelevanceThresholds) (st : Strategy)
      (kw2 : Keywords) (ev2 : CollabResult Effectiveness) (text time : String),
      wfKeywords kw2 →
      process_query activities G w p th
        ⟨CollabResult.ok st, CollabResult.ok kw2, CollabResult.parseError, ev2⟩
        text time = Except.error PyFailure.jsonDecodeError) ∧
    (∀ (activities : List Bag) (G : Graph) (w : SearchWeights)
      (p : SearchPriorities) (th : RelevanceThresholds)
      (expandR : CollabResult Keywords) (ev1 ev2 : CollabResult Effectiveness)
      (text time : String),
      process_query activities G w p th
        ⟨CollabResult.callFailure, expandR, ev1, ev2⟩ text time =
        Except.error PyFailure.apiError) := by
  refine ⟨?_, ?_, ?_, ?_⟩
  · intro activities G w p th expandR e1 ev2 text time hsuff
    obtain ⟨r, hr⟩ := initial_candidates_ok p th
      (get_activity_at_time activities time) defaultKeywords defaultKeywords_wf
    refine ⟨{ query_time := time,
              current_activity := get_activity_at_time activities time,
              keyword_original := defaultKeywords,
              keyword_expanded := defaultKeywords,
              results := r.take 8, effectiveness := e1,
              routine_weight := (w.adjust e1).routine_weight,
              story_weight := (w.adjust e1).story_weight }, ?_, rfl, rfl⟩
    simp only [process_query, analyze_parseError, ok_bind, hr,
      evaluate_effectiveness, hsuff, if_true]
    rfl
  · intro activities G w p th st e1 ev2 text time hcats hsuff
    obtain ⟨r, hr⟩ := initial_candidates_ok p th
      (get_activity_at_time activities time) st.keywords hcats
    refine ⟨{ query_time := time,
              current_activity := get_activity_at_time activities time,
              keyword_original := st.keywords, keyword_expanded := st.keywords,
              results := r.take 8, effectiveness := e1,
              routine_weight := (w.adjust e1).routine_weight,
              story_weight := (w.adjust e1).story_weight }, ?_, rfl, rfl⟩
    simp only [process_query, analyze_ok_parseError, ok_bind, hr,
      evaluate_effectiveness, hsuff, if_true]
    rfl
  · intro activities G w p th st kw2 ev2 text time hcats
    obtain ⟨r, hr⟩ := initial_candidates_ok p th
      (get_activity_at_time activities time) kw2 hcats
    simp only [process_query, analyze_ok_ok, ok_bind, hr,
      evaluate_effectiveness, error_bind]
  · intro activities G w p th expandR ev1 ev2 text time
    rfl

/-- Witness for C1 (amended) at concrete inputs: NLU parse failure recovers
with the default strategy, expansion parse failure recovers with the original
keywords, an unparseable sufficiency evaluation propagates, and a failed NLU
call propagates. -/
theorem C1_failure_semantics_witness :
    (∃ out : QueryOutcome,
      process_query [] Graph.empty SearchWeights.init {} {}
        ⟨CollabResult.parseError, CollabResult.ok defaultKeywords,
         CollabResult.ok ⟨1, true, "balanced"⟩, CollabResult.parseError⟩
        "hi" "12:00" = Except.ok out ∧
      out.keyword_expanded = defaultKeywords ∧
      out.effectiveness = ⟨1, true, "balanced"⟩) ∧
    (∃ out : QueryOutcome,
      process_query [] Graph.empty SearchWeights.init {} {}
        ⟨CollabResult.ok ⟨defaultKeywords, "routine", "current"⟩,
         CollabResult.parseError,
         CollabResult.ok ⟨1, true, "balanced"⟩, CollabResult.parseError⟩
        "hi" "12:00" = Except.ok out ∧
      out.keyword_expanded = defaultKeywords ∧
      out.effectiveness = ⟨1, true, "balanced"⟩) ∧
    process_query [] Graph.empty SearchWeights.init {} {}
      ⟨CollabResult.ok ⟨defaultKeywords, "routine", "current"⟩,
       CollabResult.ok defaultKeywords,
       CollabResult.parseError, CollabResult.parseError⟩
      "hi" "12:00" = Except.error PyFailure.jsonDecodeError ∧
    process_query [] Graph.empty SearchWeights.init {} {}
      ⟨CollabResult.callFailure, CollabResult.parseError, CollabResult.parseError,
       CollabResult.parseError⟩ "hi" "12:00" = Except.error PyFailure.apiError :=
  ⟨C1_failure_semantics.1 [] Graph.empty SearchWeights.init {} {}
      (CollabResult.ok defaultKeywords) ⟨1, true, "balanced"⟩
      CollabResult.parseError "hi" "12:00" rfl,
    C1_failure_semantics.2.1 [] Graph.empty SearchWeights.init {} {}
      ⟨defaultKeywords, "routine", "current"⟩ ⟨1, true, "balanced"⟩
      CollabResult.parseError "hi" "12:00" defaultKeywords_wf rfl,
    C1_failure_semantics.2.2.1 [] Graph.empty SearchWeights.init {} {}
      ⟨defaultKeywords, "routine", "current"⟩ defaultKeywords
      CollabResult.parseError "hi" "12:00" defaultKeywords_wf,
    C1_failure_semantics.2.2.2 [] Graph.empty SearchWeights.init {} {}
      CollabResult.parseError CollabResult.parseError CollabResult.parseError
      "hi" "12:00"⟩

/-- The entry `_search_knowledge_graphs` builds for one graph node on a
well-categorized keyword map: the node's raw score multiplied by its source's
adaptive weight (`routine_weight` for activity nodes, `story_weight` for the
others), kept only when it reaches `min_score`. -/
def mkBroadEntry (w : SearchWeights) (p : SearchPriorities) (th : RelevanceThresholds)
    (keywords : Keywords) (node : String × Bag) : Option SearchEntry :=
  let relevance := relevanceScore p (Val.dict node.2) keywords
  let source_type := if nodeType node.2 = "activity" then "routine" else "story"
  let weight := if source_type = "routine" then w.routine_weight else w.story_weight
  let weighted_relevance := relevance * weight
  if th.min_score ≤ weighted_relevance then
    some ⟨nodeType node.2, node.2, weighted_relevance, source_type⟩
  else none

theorem searchFold_ok (w : SearchWeights) (p : SearchPriorities)
    (th : RelevanceThresholds) (kw : Keywords) (h : wfKeywords kw) :
    ∀ (nodes : List (String × Bag)) (acc : List SearchEntry),
      nodes.foldl (searchStep w p th kw) (Except.ok acc) =
        Except.ok (acc ++ nodes.filterMap (mkBroadEntry w p th kw)) := by
  intro nodes
  induction nodes with
  | nil => intro acc; simp
  | cons nb rest ih =>
    intro acc
    rw [List.foldl_cons]
    have hcalc : calculate_relevance p (Val.dict nb.2) kw =
        Except.ok (relevanceScore p (Val.dict nb.2) kw) := calcRelLoop_ok p _ kw 0 h
    have hstep : searchStep w p th kw (Except.ok acc) nb =
        Except.ok (acc ++ (mkBroadEntry w p th kw nb).toList) := by
      show ((calculate_relevance p (Val.dict nb.2) kw).map _) = _
      rw [hcalc, ok_map]
      simp only [mkBroadEntry]
      by_cases hc : th.min_score ≤ relevanceScore p (Val.dict nb.2) kw *
          (if (if nodeType nb.2 = "activity" then "routine" else "story") = "routine"
           then w.routine_weight else w.story_weight)
      · rw [if_pos hc, if_pos hc, Option.toList_some]
      · rw [if_neg hc, if_neg hc, Option.toList_none, List.append_nil]
    rw [hstep, ih, List.append_assoc]
    cases hopt : mkBroadEntry w p th kw nb <;>
      simp [List.filterMap_cons, hopt]

theorem search_eq_pipeline (G : Graph) (w : SearchWeights) (p : SearchPriorities)
    (th : RelevanceThresholds) (kw : Keywords) (h : wfKeywords kw) :
    search_knowledge_graphs G w p th kw =
      Except.ok (((G.nodes.filterMap (mkBroadEntry w p th kw)).mergeSort
        byRelevanceDesc).take 4) := by
  unfold search_knowledge_graphs
  rw [searchFold_ok w p th kw h G.nodes [], ok_map]
  rfl

theorem mkBroadEntry_min_score {w : SearchWeights} {p : SearchPriorities}
    {th : RelevanceThresholds} {kw : Keywords} {nb : String × Bag}
    {entry : SearchEntry} (h : mkBroadEntry w p th kw nb = some entry) :
    th.min_score ≤ entry.relevance := by
  simp only [mkBroadEntry] at h
  repeat' split at h
  all_goals cases h
  all_goals assumption

theorem sorted_byRelevanceDesc (l : List SearchEntry) :
    List.Pairwise (fun a b : SearchEntry => b.relevance ≤ a.relevance)
      (l.mergeSort byRelevanceDesc) := by
  have htrans : ∀ a b c : SearchEntry, byRelevanceDesc a b → byRelevanceDesc b c →
      byRelevanceDesc a c := by
    intro a b c h1 h2
    exact decide_eq_true (le_trans (of_decide_eq_true h2) (of_decide_eq_true h1))
  have htotal : ∀ a b : SearchEntry, byRelevanceDesc a b || byRelevanceDesc b a := by
    intro a b
    rcases le_total a.relevance b.relevance with h | h <;>
      simp [byRelevanceDesc, h]
  exact (List.sorted_mergeSort htrans htotal l).imp fun hab => of_decide_eq_true hab

/-- C8: when the first sufficiency evaluation is insufficient, `process_query`
broadens exactly once: it scores every node of the memory graph, weights
activity nodes by `routine_weight` and the others by `story_weight`, keeps
the entries at or above `min_score`, sorts them descending by weighted score,
takes at most the top 4, appends them to the existing candidates, and uses
the second sufficiency evaluation as the final one — with no further
broadening regardless of that second judgment. -/
theorem C8_single_broadening_pass (activities : List Bag) (G : Graph)
    (w : SearchWeights) (p : SearchPriorities) (th : RelevanceThresholds)
    (st : Strategy) (kw2 : Keywords) (e1 e2 : Effectiveness) (text time : String)
    (hcats : wfKeywords kw2)
    (hsuff : e1.sufficient = false) :
    ∃ initial : List SearchEntry,
      initial_candidates p th (get_activity_at_time activities time) kw2 =
        Except.ok initial ∧
      process_query activities G w p th
        ⟨CollabResult.ok st, CollabResult.ok kw2, CollabResult.ok e1,
         CollabResult.ok e2⟩ text time =
        Except.ok
          { query_time := time,
            current_activity := get_activity_at_time activities time,
            keyword_original := kw2, keyword_expanded := kw2,
            results := (initial ++ ((G.nodes.filterMap
              (mkBroadEntry w p th kw2)).mergeSort byRelevanceDesc).take 4).take 8,
            effectiveness := e2,
            routine_weight := (w.adjust e2).routine_weight,
            story_weight := (w.adjust e2).story_weight } ∧
      List.Pairwise (fun a b : SearchEntry => b.relevance ≤ a.relevance)
        (((G.nodes.filterMap (mkBroadEntry w p th kw2)).mergeSort
          byRelevanceDesc).take 4) ∧
      (((G.nodes.filterMap (mkBroadEntry w p th kw2)).mergeSort
        byRelevanceDesc).take 4).length ≤ 4 ∧
      ∀ entry ∈ ((G.nodes.filterMap (mkBroadEntry w p th kw2)).mergeSort
          byRelevanceDesc).take 4,
        th.min_score ≤ entry.relevance ∧
        ∃ nb ∈ G.nodes, mkBroadEntry w p th kw2 nb = some entry := by
  obtain ⟨initial, hinit⟩ := initial_candidates_ok p th
    (get_activity_at_time activities time) kw2 hcats
  refine ⟨initial, hinit, ?_, ?_, List.length_take_le _ _, ?_⟩
  · simp only [process_query, analyze_ok_ok, ok_bind, hinit,
      evaluate_effectiveness, hsuff, Bool.false_eq_true, if_false,
      search_eq_pipeline G w p th kw2 hcats]
    rfl
  · exact (sorted_byRelevanceDesc _).sublist (List.take_sublist _ _)
  · intro entry hentry
    have hmem : entry ∈ (G.nodes.filterMap (mkBroadEntry w p th kw2)).mergeSort
        byRelevanceDesc := List.mem_of_mem_take hentry
    rw [List.mem_mergeSort] at hmem
    obtain ⟨nb, hnb, hmk⟩ := List.mem_filterMap.mp hmem
    exact ⟨mkBroadEntry_min_score hmk, nb, hnb, hmk⟩

/-- Witness for C8 at a concrete scenario: one breakfast routine, a keyword
map on the `events` category, an insufficient first evaluation and a second
evaluation that closes the query. -/
theorem C8_single_broadening_pass_witness :
    ∃ initial : List SearchEntry,
      initial_candidates {} {} (get_activity_at_time [breakfastActivity] "06:30")
          [("events", [Term.str "Breakfast"])] = Except.ok initial ∧
      process_query [breakfastActivity]
          (construct_memory_network [breakfastActivity] []) SearchWeights.init {} {}
          ⟨CollabResult.ok ⟨[("events", [Term.str "Breakfast"])], "routine", "current"⟩,
           CollabResult.ok [("events", [Term.str "Breakfast"])],
           CollabResult.ok ⟨0, false, "balanced"⟩,
           CollabResult.ok ⟨1, true, "balanced"⟩⟩
          "Tell me about breakfast" "06:30" =
        Except.ok
          { query_time := "06:30",
            current_activity := get_activity_at_time [breakfastActivity] "06:30",
            keyword_original := [("events", [Term.str "Breakfast"])],
            keyword_expanded := [("events", [Term.str "Breakfast"])],
            results := (initial ++
              (((construct_memory_network [breakfastActivity] []).nodes.filterMap
                (mkBroadEntry SearchWeights.init {} {}
                  [("events", [Term.str "Breakfast"])])).mergeSort
                byRelevanceDesc).take 4).take 8,
            effectiveness := ⟨1, true, "balanced"⟩,
            routine_weight :=
              (SearchWeights.init.adjust ⟨1, true, "balanced"⟩).routine_weight,
            story_weight :=
              (SearchWeights.init.adjust ⟨1, true, "balanced"⟩).story_weight } ∧
      List.Pairwise (fun a b : SearchEntry => b.relevance ≤ a.relevance)
        ((((construct_memory_network [breakfastActivity] []).nodes.filterMap
          (mkBroadEntry SearchWeights.init {} {}
            [("events", [Term.str "Breakfast"])])).mergeSort
          byRelevanceDesc).take 4) ∧
      ((((construct_memory_network [breakfastActivity] []).nodes.filterMap
        (mkBroadEntry SearchWeights.init {} {}
          [("events", [Term.str "Breakfast"])])).mergeSort
        byRelevanceDesc).take 4).length ≤ 4 ∧
      ∀ entry ∈ (((construct_memory_network [breakfastActivity] []).nodes.filterMap
          (mkBroadEntry SearchWeights.init {} {}
            [("events", [Term.str "Breakfast"])])).mergeSort
          byRelevanceDesc).take 4,
        ({} : RelevanceThresholds).min_score ≤ entry.relevance ∧
        ∃ nb ∈ (construct_memory_network [breakfastActivity] []).nodes,
          mkBroadEntry SearchWeights.init {} {}
            [("events", [Term.str "Breakfast"])] nb = some entry :=
  C8_single_broadening_pass [breakfastActivity]
    (construct_memory_network [breakfastActivity] []) SearchWeights.init {} {}
    ⟨[("events", [Term.str "Breakfast"])], "routine", "current"⟩
    [("events", [Term.str "Breakfast"])] ⟨0, false, "balanced"⟩
    ⟨1, true, "balanced"⟩ "Tell me about breakfast" "06:30"
    (by unfold wfKeywords; decide) rfl

end Noyce
